import Mathlib

/-!
Verification development for the HIP-tools character-history parser/rewriter
(`culture-melt/history.py`, a Python 2 program).

Modelling conventions:
* File contents are modelled as decoded text (`List Char`); the cp1252
  encode/decode steps are identity on the modelled text.
* `readline` over the decoded stream is modelled by `linesOf`, which splits on
  the universal line terminators LF, CRLF and CR.
* Python's regular expressions (compiled without flags, so `\s` and `\d` are
  ASCII-only) are translated into executable matchers, including the exact
  greedy-with-backtracking behaviour where it is observable.
* Python 2 attribute absence (`hasattr`) is modelled by `Option`; an attribute
  access that would raise `AttributeError` makes the modelled function return
  `none`.
* Python 2 values whose dynamic type matters (the `dynasty.val` field holds an
  `int` while the rewrite guard compares it against the unicode string `u'0'`)
  are modelled by `PyVal`; `pyNe` models Python 2 `!=`, under which an int and
  a string are always unequal.
-/

namespace HistoryPy

/-- Python `\s` on a pattern compiled without `re.UNICODE`: the six ASCII
whitespace characters. -/
def isSpaceCh (c : Char) : Bool :=
  c = ' ' || c = '\t' || c = '\n' || c = '\r' || c = '\x0b' || c = '\x0c'

/-- Python `\d` without `re.UNICODE`: ASCII digits. -/
def isDigitCh (c : Char) : Bool := c.isDigit

/-- The decimal digit character for `d < 10`. -/
def digitChar (d : Nat) : Char := Char.ofNat (48 + d)

/-- Worker for `natDec`.  The `fuel` parameter only makes the recursion
structural (so that concrete values compute by kernel reduction); any
`fuel > n` yields the true decimal rendering, as `natDecGo_irrel`,
`natDec_lt10` and `natDec_ge10` establish. -/
def natDecGo : Nat → Nat → List Char
  | 0, _ => []
  | fuel + 1, n =>
    if n < 10 then [digitChar n]
    else natDecGo fuel (n / 10) ++ [digitChar (n % 10)]

/-- Decimal rendering of a natural number, as Python `'{}'.format(n)` / `%d`
produce for the nonnegative ints occurring in the program. -/
def natDec (n : Nat) : List Char := natDecGo (n + 1) n

theorem natDecGo_irrel (n : Nat) :
    ∀ f1 f2, n < f1 → n < f2 → natDecGo f1 n = natDecGo f2 n := by
  induction n using Nat.strong_induction_on with
  | _ n ih =>
    intro f1 f2 h1 h2
    match f1, f2 with
    | g1 + 1, g2 + 1 =>
      by_cases hn : n < 10
      · simp [natDecGo, hn]
      · simp only [natDecGo, if_neg hn]
        have hd : n / 10 < n := Nat.div_lt_self (by omega) (by omega)
        rw [ih (n / 10) hd g1 g2 (by omega) (by omega)]

theorem natDec_lt10 {n : Nat} (h : n < 10) : natDec n = [digitChar n] := by
  simp [natDec, natDecGo, h]

theorem natDec_ge10 {n : Nat} (h : ¬n < 10) :
    natDec n = natDec (n / 10) ++ [digitChar (n % 10)] := by
  have hd : n / 10 < n := Nat.div_lt_self (by omega) (by omega)
  simp only [natDec]
  conv_lhs => rw [natDecGo]
  rw [if_neg h, natDecGo_irrel (n / 10) n (n / 10 + 1) hd (Nat.lt_succ_self _)]

/-- `%0wd`: decimal rendering left-padded with zeros to a minimum width `w`. -/
def padNum (w n : Nat) : List Char :=
  List.replicate (w - (natDec n).length) '0' ++ natDec n

/-- Python `int` applied to a (nonempty) string of decimal digits. -/
def natOfDigits (ds : List Char) : Nat :=
  ds.foldl (fun acc c => 10 * acc + (c.toNat - 48)) 0

/-- `p_blank = r'^\s+$'`. -/
def blankMatch (s : List Char) : Bool :=
  !s.isEmpty && s.all isSpaceCh

/-- `p_bare_comment_or_blank = r'^(\s*#.*)|(\s*)$'`: the line is a bare `#`
comment (after optional leading whitespace) or is entirely whitespace
(including empty). -/
def bareCommentOrBlankMatch (s : List Char) : Bool :=
  (s.dropWhile isSpaceCh).head? = some '#' || s.all isSpaceCh

/-- The tail part `\s*(#.*)?$` shared by several field patterns: returns the
optional captured comment (which starts at its `#`), or `none` if the rest of
the line cannot match. -/
def restCmt (s : List Char) : Option (Option (List Char)) :=
  let s' := s.dropWhile isSpaceCh
  if s'.isEmpty then some none
  else if s'.head? = some '#' then some (some s')
  else none

/-- `p_char_start = r'^\s*(\d+)\s*=\s*\{\s*(#.*)?$'`: returns the numeric id
and the optional comment. -/
def charStartMatch (s : List Char) : Option (Nat × Option (List Char)) :=
  let s1 := s.dropWhile isSpaceCh
  let ds := s1.takeWhile isDigitCh
  if ds.isEmpty then none
  else
    match (s1.drop ds.length).dropWhile isSpaceCh with
    | '=' :: s3 =>
      match s3.dropWhile isSpaceCh with
      | '{' :: s5 =>
        match restCmt s5 with
        | some cmt => some (natOfDigits ds, cmt)
        | none => none
      | _ => none
    | _ => none

/-- `p_char_end = r'^\}\s*$'` (note: no leading whitespace is allowed). -/
def charEndMatch (s : List Char) : Bool :=
  match s with
  | '}' :: r => r.all isSpaceCh
  | _ => false

/-- Removes an exact literal prefix, or fails. -/
def stripLit : List Char → List Char → Option (List Char)
  | [], s => some s
  | _ :: _, [] => none
  | p :: ps, c :: cs => if c = p then stripLit ps cs else none

/-- Index of the last occurrence of `c` in `l`, if any. -/
def lastIdxOf (c : Char) : List Char → Option Nat
  | [] => none
  | x :: xs =>
    match lastIdxOf c xs with
    | some i => some (i + 1)
    | none => if x = c then some 0 else none

/-- The value-with-optional-comment part `(?:"([^"]+)"|([^"\s]+))\s*(#.*)?$` of
the `name`/`religion`/`culture` patterns.  The unquoted alternative is greedy
with backtracking: if the maximal non-quote non-whitespace run is not followed
by a string matching `\s*(#.*)?$`, the regex engine retries at the last `#`
inside the run (the token must stay nonempty). -/
def valCmt (s : List Char) : Option (List Char × Option (List Char)) :=
  match s with
  | '"' :: t =>
    let inside := t.takeWhile (fun c => c ≠ '"')
    if inside.isEmpty then none
    else
      match t.drop inside.length with
      | '"' :: rest =>
        match restCmt rest with
        | some cmt => some (inside, cmt)
        | none => none
      | _ => none
  | _ =>
    let run := s.takeWhile (fun c => !(c = '"' || isSpaceCh c))
    if run.isEmpty then none
    else
      match restCmt (s.drop run.length) with
      | some cmt => some (run, cmt)
      | none =>
        match lastIdxOf '#' run with
        | some p =>
          if p = 0 then none
          else some (run.take p, some (run.drop p ++ s.drop run.length))
        | none => none

/-- `r'^\s*KEY\s*=\s*(?:"([^"]+)"|([^"\s]+))\s*(#.*)?$'` for
`KEY ∈ {name, religion, culture}`. -/
def keyValCmtMatch (key : List Char) (s : List Char) :
    Option (List Char × Option (List Char)) :=
  match stripLit key (s.dropWhile isSpaceCh) with
  | none => none
  | some s2 =>
    match s2.dropWhile isSpaceCh with
    | '=' :: s3 => valCmt (s3.dropWhile isSpaceCh)
    | _ => none

/-- `p_char_name`. -/
def nameMatch (s : List Char) : Option (List Char × Option (List Char)) :=
  keyValCmtMatch ['n', 'a', 'm', 'e'] s

/-- `p_char_religion`. -/
def religionMatch (s : List Char) : Option (List Char × Option (List Char)) :=
  keyValCmtMatch ['r', 'e', 'l', 'i', 'g', 'i', 'o', 'n'] s

/-- `p_char_culture`. -/
def cultureMatch (s : List Char) : Option (List Char × Option (List Char)) :=
  keyValCmtMatch ['c', 'u', 'l', 't', 'u', 'r', 'e'] s

/-- `p_char_female = r'^\s*female\s*=\s*(yes|no)\s*$'`: returns `true` for
`yes`, `false` for `no`. -/
def femaleMatch (s : List Char) : Option Bool :=
  match stripLit ['f', 'e', 'm', 'a', 'l', 'e'] (s.dropWhile isSpaceCh) with
  | none => none
  | some s2 =>
    match s2.dropWhile isSpaceCh with
    | '=' :: s3 =>
      let s4 := s3.dropWhile isSpaceCh
      match stripLit ['y', 'e', 's'] s4 with
      | some r => if r.all isSpaceCh then some true else none
      | none =>
        match stripLit ['n', 'o'] s4 with
        | some r => if r.all isSpaceCh then some false else none
        | none => none
    | _ => none

/-- `p_char_dynasty = r'^\s*dynasty\s*=\s*(?:"(\d+)"|(\d+))\s*(#.*)?$'`:
returns the digit string and the optional comment.  Unlike `valCmt` there is
no `#` backtracking opportunity, because the token consists of digits. -/
def dynastyMatch (s : List Char) : Option (List Char × Option (List Char)) :=
  match stripLit ['d', 'y', 'n', 'a', 's', 't', 'y'] (s.dropWhile isSpaceCh) with
  | none => none
  | some s2 =>
    match s2.dropWhile isSpaceCh with
    | '=' :: s3 =>
      match s3.dropWhile isSpaceCh with
      | '"' :: t =>
        let ds := t.takeWhile isDigitCh
        if ds.isEmpty then none
        else
          match t.drop ds.length with
          | '"' :: rest =>
            match restCmt rest with
            | some cmt => some (ds, cmt)
            | none => none
          | _ => none
      | s4 =>
        let ds := s4.takeWhile isDigitCh
        if ds.isEmpty then none
        else
          match restCmt (s4.drop ds.length) with
          | some cmt => some (ds, cmt)
          | none => none
    | _ => none

/-- A date component `(\d{1,w})` followed by a non-digit: the maximal digit
run must have length between 1 and `w` (a longer run cannot match, because
every shorter prefix is still followed by a digit). Returns the digit group
and the rest. -/
def dateComponent (w : Nat) (s : List Char) : Option (List Char × List Char) :=
  let ds := s.takeWhile isDigitCh
  if ds.isEmpty || w < ds.length then none
  else some (ds, s.drop ds.length)

/-- The common date-header prefix `^\s*(\d{1,4})\.(\d{1,2})\.(\d{1,2})\s*=`
of `p_char_hist_entry_start` / `p_char_hist_entry_multi_start`.  Returns the
three digit groups and the rest after `=`. -/
def dateEqPrefix (s : List Char) :
    Option ((List Char × List Char × List Char) × List Char) :=
  match dateComponent 4 (s.dropWhile isSpaceCh) with
  | none => none
  | some (y, s1) =>
    match s1 with
    | '.' :: s2 =>
      match dateComponent 2 s2 with
      | none => none
      | some (m, s3) =>
        match s3 with
        | '.' :: s4 =>
          match dateComponent 2 s4 with
          | none => none
          | some (d, s5) =>
            match s5.dropWhile isSpaceCh with
            | '=' :: s6 => some ((y, m, d), s6)
            | _ => none
        | _ => none
    | _ => none

/-- `p_char_hist_entry_start = r'^\s*(\d{1,4})\.(\d{1,2})\.(\d{1,2})\s*=\s*\{'`
(a prefix match: whatever follows the `{` is not captured). -/
def histEntryStartMatch (s : List Char) :
    Option (List Char × List Char × List Char) :=
  match dateEqPrefix s with
  | none => none
  | some (g, s6) =>
    match s6.dropWhile isSpaceCh with
    | '{' :: _ => some g
    | _ => none

/-- `p_char_hist_entry_multi_start =
r'^\s*(\d{1,4})\.(\d{1,2})\.(\d{1,2})\s*=\s*$'`. -/
def histEntryMultiStartMatch (s : List Char) :
    Option (List Char × List Char × List Char) :=
  match dateEqPrefix s with
  | none => none
  | some (g, s6) => if s6.all isSpaceCh then some g else none

/-- `p_char_hist_entry_multi_finish = r'^\s*\{\s*$'`. -/
def multiFinishMatch (s : List Char) : Bool :=
  match s.dropWhile isSpaceCh with
  | '{' :: r => r.all isSpaceCh
  | _ => false

/-- `p_char_hist_entry_birth =
r'^\s*birth\s*=\s*(?:"(?:[^"]+)"|([^"\s]+))'` (prefix match).  On success
returns group 1: `none` for the quoted alternative (whose group is
non-capturing), `some token` for the unquoted one. -/
def birthMatch (s : List Char) : Option (Option (List Char)) :=
  match stripLit ['b', 'i', 'r', 't', 'h'] (s.dropWhile isSpaceCh) with
  | none => none
  | some s2 =>
    match s2.dropWhile isSpaceCh with
    | '=' :: s3 =>
      match s3.dropWhile isSpaceCh with
      | '"' :: t =>
        let inside := t.takeWhile (fun c => c ≠ '"')
        if inside.isEmpty then none
        else
          match t.drop inside.length with
          | '"' :: _ => some none
          | _ => none
      | s4 =>
        let run := s4.takeWhile (fun c => !(c = '"' || isSpaceCh c))
        if run.isEmpty then none else some (some run)
    | _ => none

/-- `p_open_brace = r'^([^}]*)\{'`: the greedy `[^}]*` backtracks, so the
match ends after the *last* `{` that precedes the first `}` of the string.
Returns `(m.group(), rest)`. -/
def openBraceMatch (s : List Char) : Option (List Char × List Char) :=
  match lastIdxOf '{' (s.takeWhile (fun c => c ≠ '}')) with
  | some i => some (s.take (i + 1), s.drop (i + 1))
  | none => none

/-- `p_close_brace = r'^([^{]*)\}'`: symmetrically, the match ends after the
last `}` that precedes the first `{`. -/
def closeBraceMatch (s : List Char) : Option (List Char × List Char) :=
  match lastIdxOf '}' (s.takeWhile (fun c => c ≠ '{')) with
  | some i => some (s.take (i + 1), s.drop (i + 1))
  | none => none

/-- `p_one_line_one_block = r'^\s*[^#]*\{.*\}'`: matches iff some `{` not
preceded by `#` is followed (anywhere later on the line) by a `}`. -/
def oneLineOneBlockMatch (s : List Char) : Bool :=
  match (s.takeWhile (fun c => c ≠ '#')).findIdx? (fun c => c = '{') with
  | some i => (s.drop (i + 1)).contains '}'
  | none => false

/-- A Python 2 value whose dynamic type matters: `dynasty.val` holds an `int`
after parsing while the other `CommentableVal` fields hold unicode strings. -/
inductive PyVal where
  | pyInt (n : Nat)
  | pyStr (s : List Char)
  deriving DecidableEq

/-- Python 2 `!=` on these values: an int and a string are never equal. -/
def pyNe : PyVal → PyVal → Bool
  | .pyInt a, .pyInt b => a != b
  | .pyStr a, .pyStr b => a != b
  | _, _ => true

/-- `'{}'.format(v)` for a `PyVal`. -/
def pyFormat : PyVal → List Char
  | .pyInt n => natDec n
  | .pyStr s => s

/-- `class CommentableVal`: a value plus an optional trailing inline comment
(`None` modelled by `none`). -/
structure CommentableVal where
  val : PyVal
  cmt : Option (List Char)
  deriving DecidableEq

/-- `class DateVal` (constructed from the captured digit strings via `int`). -/
structure DateVal where
  y : Nat
  m : Nat
  d : Nat
  deriving DecidableEq

/-- `self.c = '%04d.%02d.%02d' % (self.y, self.m, self.d)`: the
lexicographic-comparable canonical date value. -/
def DateVal.c (v : DateVal) : List Char :=
  padNum 4 v.y ++ '.' :: padNum 2 v.m ++ '.' :: padNum 2 v.d

/-- `DateVal.__str__`: `'{}.{}.{}'.format(y, m, d)` (unpadded). -/
def DateVal.str (v : DateVal) : List Char :=
  natDec v.y ++ '.' :: natDec v.m ++ '.' :: natDec v.d

/-- `DateVal.__cmp__` compares the canonical strings; Python 2 unicode-string
comparison is lexicographic on code points. -/
def DateVal.lt (a b : DateVal) : Prop :=
  List.Lex (· < ·) a.c b.c

instance : DecidableRel DateVal.lt := fun a b =>
  inferInstanceAs (Decidable (List.Lex (· < ·) a.c b.c))

/-- `CHFileLiteral` (rewrites with an implied `\n`) and `CHFileLiteralPart`
(identical but without the implied EOL). -/
inductive CHElem where
  | literal (s : List Char)
  | literalPart (s : List Char)
  deriving DecidableEq

/-- `CHFileLiteral.rewrite` / `CHFileLiteralPart.rewrite`: the text written to
the output stream (writing the literal only if nonempty equals writing it
unconditionally). -/
def CHElem.rewrite : CHElem → List Char
  | .literal s => s ++ ['\n']
  | .literalPart s => s

/-- `class CHFileCharHistEntry`. -/
structure CHFileCharHistEntry where
  date : DateVal
  elems : List CHElem
  deriving DecidableEq

/-- `CHFileCharHistEntry.rewrite`: `'\t{} = {{\n'.format(self.date)` followed
by the body elements. -/
def CHFileCharHistEntry.rewrite (e : CHFileCharHistEntry) : List Char :=
  '\t' :: e.date.str ++ ' ' :: '=' :: ' ' :: '{' :: '\n' ::
    (e.elems.map CHElem.rewrite).flatten

/-- `class CHFileChar`.  Attributes that Python creates only on assignment
(`name`, `dynasty`, `religion`, `culture`, `bdate`) are `Option`s; `female`
starts as `None` and is only ever set to `True`, so it is a `Bool`. -/
structure CHFileChar where
  id : Nat
  comment : Option (List Char)
  start_line_literal : CHElem
  start_line : Nat
  hist_entries : List CHFileCharHistEntry
  elems : List CHElem
  literal_elems : List CHElem
  dirty : Bool
  is_last_in_file : Bool
  female : Bool
  name : Option CommentableVal
  dynasty : Option CommentableVal
  religion : Option CommentableVal
  culture : Option CommentableVal
  bdate : Option DateVal
  deriving DecidableEq

/-- `CHFileChar.__init__ (id, start_line_literal, comment)`. -/
def CHFileChar.mkInit (id : Nat) (start_line : List Char)
    (comment : Option (List Char)) : CHFileChar where
  id := id
  comment := comment
  start_line_literal := .literal start_line
  start_line := 0
  hist_entries := []
  elems := []
  literal_elems := []
  dirty := false
  is_last_in_file := false
  female := false
  name := none
  dynasty := none
  religion := none
  culture := none
  bdate := none

/-- A scalar field line of the canonical (dirty) rewrite:
`'\tKEY=V'` with the value optionally quoted, followed by two spaces and the
attached comment when one is present, and `'\n'`. -/
def fieldLine (key : List Char) (quoted : Bool) (v : CommentableVal) :
    List Char :=
  '\t' :: key ++ '=' ::
    (if quoted then '"' :: pyFormat v.val ++ ['"'] else pyFormat v.val) ++
    (match v.cmt with
     | none => []
     | some c => ' ' :: ' ' :: c) ++ ['\n']

/-- `CHFileChar._finalize`: default the dynasty to lowborn (`0`), then require
`culture`, `name` and `bdate` (in that order).  Called at the record's closing
brace. -/
def CHFileChar.finalize (fname : List Char) (c : CHFileChar) :
    Except (List Char) CHFileChar :=
  let c := { c with dynasty := some (c.dynasty.getD ⟨.pyInt 0, none⟩) }
  if c.culture.isNone then
    .error ("Character ID ".data ++ natDec c.id ++ " [".data ++ fname ++
      ": line ".data ++ natDec c.start_line ++ "] has no culture defined!".data)
  else if c.name.isNone then
    .error ("Character ID ".data ++ natDec c.id ++ " [".data ++ fname ++
      ": line ".data ++ natDec c.start_line ++
      "] has no given name defined!".data)
  else if c.bdate.isNone then
    .error ("Character ID ".data ++ natDec c.id ++ " [".data ++ fname ++
      ": line ".data ++ natDec c.start_line ++
      "] has no birth date defined!".data)
  else .ok c

/-- `CHFileChar.rewrite`.  The dirty path reads `self.name`, `self.dynasty`,
`self.religion` and `self.culture` unconditionally; a missing attribute would
raise `AttributeError`, modelled by `none` (the Python code writes its output
incrementally, so on such an error a prefix has already been written; only
the success/failure and the successful output are modelled here).  Note the
dynasty guard `self.dynasty.val != u'0'`: `pyNe` on an int and a string. -/
def CHFileChar.rewrite (c : CHFileChar) : Option (List Char) :=
  let start := c.start_line_literal.rewrite
  if c.dirty then
    match c.name, c.dynasty, c.religion, c.culture with
    | some nm, some dy, some rel, some cul =>
      some (start ++
        fieldLine ("name").data true nm ++
        (if c.female then '\t' :: "female=yes".data ++ ['\n'] else []) ++
        (if pyNe dy.val (.pyStr ['0']) then fieldLine ("dynasty").data false dy
         else []) ++
        fieldLine ("religion").data true rel ++
        fieldLine ("culture").data true cul ++
        (c.elems.map CHElem.rewrite).flatten ++
        (c.hist_entries.map CHFileCharHistEntry.rewrite).flatten ++
        (if c.is_last_in_file then ['}'] else ['}', '\n']))
    | _, _, _, _ => none
  else
    some (start ++ (c.literal_elems.map CHElem.rewrite).flatten)

/-- A top-level element of a `CHFile`: a literal line or a character block. -/
inductive CHTopElem where
  | lit (e : CHElem)
  | char (c : CHFileChar)
  deriving DecidableEq

/-- Rewrite of one top-level element. -/
def CHTopElem.rewrite : CHTopElem → Option (List Char)
  | .lit e => some e.rewrite
  | .char c => c.rewrite

/-- `CHFile.rewrite`: concatenated rewrite of all elements (`none` if any
character rewrite raises). -/
def renderFile (elems : List CHTopElem) : Option (List Char) :=
  match elems with
  | [] => some []
  | e :: rest =>
    match e.rewrite, renderFile rest with
    | some s, some r => some (s ++ r)
    | _, _ => none

/-- One physical line as produced by `readline`: the text with the trailing
line terminator stripped (`rstrip(u'\r\n')`), plus whether the line ended
with a terminator (`line.endswith((u'\n', u'\r'))`). -/
structure Line where
  content : List Char
  eol : Bool
  deriving DecidableEq

/-- The line's contribution to terminator-normalized file content. -/
def Line.norm (l : Line) : List Char :=
  l.content ++ if l.eol then ['\n'] else []

/-- The literal element recorded for a line by `CHFileChar.parse` and
`CHFile.parse`: `CHFileLiteral` if the line had an EOL, else
`CHFileLiteralPart`. -/
def Line.lit (l : Line) : CHElem :=
  if l.eol then .literal l.content else .literalPart l.content

/-- Splits decoded text into `readline` results, recognizing the universal
line terminators `\n`, `\r\n` and `\r` (`acc` holds the reversed content of
the line being scanned). -/
def linesOfAux (acc : List Char) : List Char → List Line
  | [] => if acc.isEmpty then [] else [⟨acc.reverse, false⟩]
  | '\r' :: '\n' :: r => ⟨acc.reverse, true⟩ :: linesOfAux [] r
  | '\r' :: r => ⟨acc.reverse, true⟩ :: linesOfAux [] r
  | '\n' :: r => ⟨acc.reverse, true⟩ :: linesOfAux [] r
  | c :: r => linesOfAux (c :: acc) r

/-- All `readline` results for a decoded text. -/
def linesOf (t : List Char) : List Line := linesOfAux [] t

/-- The text with every line terminator (`\n`, `\r\n`, `\r`) replaced by a
single `\n`. -/
def normalize : List Char → List Char
  | [] => []
  | '\r' :: '\n' :: r => '\n' :: normalize r
  | '\r' :: r => '\n' :: normalize r
  | '\n' :: r => '\n' :: normalize r
  | c :: r => c :: normalize r

/-- `"Unexpected EOF while parsing character ID %d [%s: line %d]!"`. -/
def msgEOF (id : Nat) (fname : List Char) (n : Nat) : List Char :=
  "Unexpected EOF while parsing character ID ".data ++ natDec id ++
    " [".data ++ fname ++ ": line ".data ++ natDec n ++ "]!".data

/-- `"Multiple birth-date history effects for character ID %d [%s: line %d]!"`. -/
def msgMultiBirth (id : Nat) (fname : List Char) (n : Nat) : List Char :=
  "Multiple birth-date history effects for character ID ".data ++ natDec id ++
    " [".data ++ fname ++ ": line ".data ++ natDec n ++ "]!".data

/-- `"Out-of-place trailing tokens after character history entry closing brace
[%s:L%d]!"`. -/
def msgTrailing (fname : List Char) (n : Nat) : List Char :=
  "Out-of-place trailing tokens after character history entry closing brace [".data ++
    fname ++ ":L".data ++ natDec n ++ "]!".data

/-- The apostrophe character (U+0027). -/
def apos : Char := Char.ofNat 39

/-- The unsupported-syntax message (the source splits it over two adjacent
string literals: `"... history "` `"parser in %s: line %d"`). -/
def msgOops (fname : List Char) (n : Nat) : List Char :=
  "Oops! Call ziji! You".data ++ apos ::
    "ve hit upon a rare syntax style unsupported in the history parser in ".data ++
    fname ++ ": line ".data ++ natDec n

/-- The unexpected-token-after-multi-line-opener message.  The source
concatenates two adjacent string literals without a separating space, so the
produced text contains `"whileparsing"`. -/
def msgMultiUnexpected (id : Nat) (fname : List Char) (n : Nat) : List Char :=
  "Unexpected token after multi-line history entry start upon previous line whileparsing character ID ".data ++
    natDec id ++ " [".data ++ fname ++ ": line ".data ++ natDec n ++ "]!".data

/-- `"Duplicate character ID found at %s: line %d!"`. -/
def msgDup (fname : List Char) (n : Nat) : List Char :=
  "Duplicate character ID found at ".data ++ fname ++ ": line ".data ++
    natDec n ++ "!".data

/-- `"Unexpected token at %s: line %d!"`. -/
def msgUnexpected (fname : List Char) (n : Nat) : List Char :=
  "Unexpected token at ".data ++ fname ++ ": line ".data ++ natDec n ++ "!".data

/-- `"Conflicting filenames '%s' added to single character history database"`. -/
def msgConflict (fname : List Char) : List Char :=
  "Conflicting filenames ".data ++ apos :: fname ++ apos ::
    " added to single character history database".data

/-- The canonical element emitted for a birth marker:
`u'\t\tbirth="{}"'.format(self.date)` unless group 1 equals `u'yes'`, in which
case `u'\t\tbirth=yes'`. -/
def birthElem (date : DateVal) (g : Option (List Char)) : CHElem :=
  if g = some ['y', 'e', 's'] then
    .literal ('\t' :: '\t' :: "birth=yes".data)
  else
    .literal ('\t' :: '\t' :: "birth=\"".data ++ date.str ++ ['"'])

/-- Result of `CHFileCharHistEntry.parse`: the entry's body elements, the
birth flag, the literal copies appended to the owning character's
`literal_elems`, the unconsumed lines and the updated line counter. -/
structure EntryOut where
  elems : List CHElem
  birth : Bool
  lits : List CHElem
  rest : List Line
  n_line : Nat
  deriving DecidableEq

/-- Prepends an entry element to a successful result. -/
def consElem (e : CHElem) : Except (List Char) EntryOut →
    Except (List Char) EntryOut
  | .ok r => .ok { r with elems := e :: r.elems }
  | .error err => .error err

/-- A sentinel error used only by the fuel-0 base cases below; the wrappers
always supply more fuel than the loops can consume, so it is unreachable in
the modelled program. -/
def fuelMsg : List Char := ("[model] fuel exhausted").data

/-- Fuel that strictly bounds the number of loop iterations over a line list
in which every iteration either reads one line or consumes at least one
character of the current line. -/
def linesFuel (lines : List Line) : Nat :=
  (lines.map (fun l => l.content.length + 1)).sum + 1

/-- The `while nest_level > 0` loop of `CHFileCharHistEntry.parse`, plus the
out-of-place-trailing-tokens check run after it.  `buf` is the unconsumed
suffix `buf[buf_idx:]` of the current line.  The `fuel` parameter only makes
the recursion structural: every iteration reads a line or consumes at least
one character, so the fuel supplied by `entryParse` cannot run out. -/
def entryLoop (fname : List Char) (chId : Nat) (date : DateVal) :
    Nat → Nat → Bool → List Char → List Line → Nat →
      Except (List Char) EntryOut
  | 0, _, _, _, _, _ => .error fuelMsg
  | fuel + 1, nest, birth, buf, lines, n_line =>
    if nest = 0 then
      if !buf.isEmpty && !bareCommentOrBlankMatch buf then
        .error (msgTrailing fname n_line)
      else .ok ⟨[], birth, [], lines, n_line⟩
    else if buf.isEmpty then
      match lines with
      | [] => .error (msgEOF chId fname n_line)
      | l :: rest =>
        match entryLoop fname chId date fuel nest birth l.content rest (n_line + 1) with
        | .ok r => .ok { r with lits := .literal l.content :: r.lits }
        | .error e => .error e
    else
      match (if nest = 1 then birthMatch buf else none) with
      | some g =>
        if birth then .error (msgMultiBirth chId fname n_line)
        else consElem (birthElem date g)
          (entryLoop fname chId date fuel nest true [] lines n_line)
      | none =>
        match openBraceMatch buf with
        | some (matched, buf') =>
          let e := if !buf'.isEmpty && !blankMatch buf' then
            CHElem.literalPart matched else CHElem.literal matched
          consElem e (entryLoop fname chId date fuel (nest + 1) birth buf' lines n_line)
        | none =>
          match closeBraceMatch buf with
          | some (matched, buf') =>
            let e := if !buf'.isEmpty && !blankMatch buf' then
              CHElem.literalPart matched else CHElem.literal matched
            consElem e (entryLoop fname chId date fuel (nest - 1) birth buf' lines n_line)
          | none =>
            if blankMatch buf then
              entryLoop fname chId date fuel nest birth [] lines n_line
            else
              consElem (.literal buf)
                (entryLoop fname chId date fuel nest birth [] lines n_line)

/-- `CHFileCharHistEntry.parse` (the entry has already consumed its opening
brace, so nesting starts at 1 with an empty buffer). -/
def entryParse (fname : List Char) (chId : Nat) (date : DateVal)
    (lines : List Line) (n_line : Nat) : Except (List Char) EntryOut :=
  entryLoop fname chId date (linesFuel lines) 1 false [] lines n_line

theorem consElem_ok {e : CHElem} {res : Except (List Char) EntryOut}
    {r : EntryOut} (h : consElem e res = .ok r) :
    ∃ r', res = .ok r' ∧ r = { r' with elems := e :: r'.elems } := by
  cases res with
  | ok r' => exact ⟨r', rfl, by cases h; rfl⟩
  | error err => cases h

/-- Structure of a successful entry parse: the consumed lines are an initial
segment of the input, each recorded (in order) as a terminated literal copy
for the owning character, and the line counter advances by their number. -/
theorem entryLoop_spec {fname : List Char} {chId : Nat} {date : DateVal}
    {fuel nest : Nat} {birth : Bool} {buf : List Char} {lines : List Line}
    {n_line : Nat} {r : EntryOut}
    (h : entryLoop fname chId date fuel nest birth buf lines n_line = .ok r) :
    ∃ cons : List Line, lines = cons ++ r.rest ∧
      r.lits = cons.map (fun l => CHElem.literal l.content) ∧
      r.n_line = n_line + cons.length := by
  induction fuel, nest, birth, buf, lines, n_line
      using entryLoop.induct fname chId date generalizing r with
  | case1 nest birth buf lines n_line =>
    rw [entryLoop] at h
    cases h
  | case2 fuel birth buf lines n_line hbad =>
    rw [entryLoop.eq_def] at h
    simp only [if_pos rfl, hbad, if_true] at h
    cases h
  | case3 fuel birth buf lines n_line hok =>
    rw [entryLoop.eq_def] at h
    simp only [if_pos rfl, if_neg hok] at h
    cases h
    exact ⟨[], rfl, rfl, rfl⟩
  | case4 fuel nest birth buf n_line hn hb =>
    rw [entryLoop.eq_def] at h
    simp only [if_neg hn, if_pos hb] at h
    cases h
  | case5 fuel nest birth buf n_line hn hb l rest r' hrec ih =>
    rw [entryLoop.eq_def] at h
    simp only [if_neg hn, if_pos hb] at h
    rw [hrec] at h
    cases h
    obtain ⟨cons, hc, hl, hnn⟩ := ih hrec
    exact ⟨l :: cons, by simpa using hc, by simpa using hl,
      by simp only [List.length_cons]; omega⟩
  | case6 fuel nest birth buf n_line hn hb l rest err hrec ih =>
    rw [entryLoop.eq_def] at h
    simp only [if_neg hn, if_pos hb] at h
    rw [hrec] at h
    cases h
  | case7 fuel nest buf lines n_line hn hb cmt hbm =>
    rw [entryLoop.eq_def] at h
    simp only [if_neg hn, if_neg hb, hbm] at h
    simp at h
  | case8 fuel nest birth buf lines n_line hn hb cmt hbm hbirth ih =>
    rw [entryLoop.eq_def] at h
    simp only [if_neg hn, if_neg hb, hbm, if_neg hbirth] at h
    obtain ⟨r', hr', hre⟩ := consElem_ok h
    obtain ⟨cons, hc, hl, hnn⟩ := ih hr'
    exact ⟨cons, by simp [hre, hc], by simp [hre, hl], by simp [hre, hnn]⟩
  | case9 fuel nest birth buf lines n_line hn hb hbm matched buf' ho ih =>
    rw [entryLoop.eq_def] at h
    simp only [if_neg hn, if_neg hb, hbm, ho] at h
    obtain ⟨r', hr', hre⟩ := consElem_ok h
    obtain ⟨cons, hc, hl, hnn⟩ := ih hr'
    exact ⟨cons, by simp [hre, hc], by simp [hre, hl], by simp [hre, hnn]⟩
  | case10 fuel nest birth buf lines n_line hn hb hbm ho matched buf' hc2 ih =>
    rw [entryLoop.eq_def] at h
    simp only [if_neg hn, if_neg hb, hbm, ho, hc2] at h
    obtain ⟨r', hr', hre⟩ := consElem_ok h
    obtain ⟨cons, hc, hl, hnn⟩ := ih hr'
    exact ⟨cons, by simp [hre, hc], by simp [hre, hl], by simp [hre, hnn]⟩
  | case11 fuel nest birth buf lines n_line hn hb hbm ho hc2 hblank ih =>
    rw [entryLoop.eq_def] at h
    simp only [if_neg hn, if_neg hb, hbm, ho, hc2, if_pos hblank] at h
    exact ih h
  | case12 fuel nest birth buf lines n_line hn hb hbm ho hc2 hblank ih =>
    rw [entryLoop.eq_def] at h
    simp only [if_neg hn, if_neg hb, hbm, ho, hc2, if_neg hblank] at h
    obtain ⟨r', hr', hre⟩ := consElem_ok h
    obtain ⟨cons, hc, hl, hnn⟩ := ih hr'
    exact ⟨cons, by simp [hre, hc], by simp [hre, hl], by simp [hre, hnn]⟩

/-- Result of `CHFileChar.parse`: the finalized character, the database
character index after registration, the unconsumed lines and the updated line
counter. -/
structure CharOut where
  c : CHFileChar
  chars : List (Nat × CHFileChar)
  rest : List Line
  n_line : Nat
  deriving DecidableEq

/-- `id in ch.chars`. -/
def charsMem (chars : List (Nat × CHFileChar)) (id : Nat) : Bool :=
  chars.any (fun p => p.1 = id)

/-- The character produced by a successful history-entry parse: the entry is
appended, the entry's literal copies extend `literal_elems`, and the birth
date is set when the entry contained a birth marker. -/
def afterEntry (c : CHFileChar) (d : DateVal) (r : EntryOut) : CHFileChar :=
  { c with
    hist_entries := c.hist_entries ++ [⟨d, r.elems⟩],
    literal_elems := c.literal_elems ++ r.lits,
    bdate := if r.birth then some d else c.bdate }

/-- The `while True` loop of `CHFileChar.parse`: reads one line at a time,
classifies it by the fixed pattern priority order of the source, and returns
at the record's closing brace after `_finalize` and registration in
`ch.chars`.  `histwait` models the `histent_brace_wait` flag together with
the associated local `d`. -/
def charParse (fname : List Char) (chars : List (Nat × CHFileChar)) :
    Nat → CHFileChar → Option DateVal → List Line → Nat →
      Except (List Char) CharOut
  | 0, _, _, _, _ => .error fuelMsg
  | fuel + 1, c, histwait, lines, n_line =>
    match lines with
    | [] => .error (msgEOF c.id fname n_line)
    | l :: rest =>
      let n := n_line + 1
      let c1 := { c with literal_elems := c.literal_elems ++ [l.lit] }
      if oneLineOneBlockMatch l.content then .error (msgOops fname n)
      else
        match histwait with
        | some d =>
          if multiFinishMatch l.content then
            match he : entryParse fname c1.id d rest n with
            | .ok r => charParse fname chars fuel (afterEntry c1 d r) none r.rest r.n_line
            | .error e => .error e
          else .error (msgMultiUnexpected c.id fname n)
        | none =>
          match nameMatch l.content with
          | some (v, cm) =>
            charParse fname chars fuel { c1 with name := some ⟨.pyStr v, cm⟩ } none rest n
          | none =>
          if femaleMatch l.content = some true then
            charParse fname chars fuel { c1 with female := true } none rest n
          else
          match dynastyMatch l.content with
          | some (ds, cm) =>
            charParse fname chars fuel
              { c1 with dynasty := some ⟨.pyInt (natOfDigits ds), cm⟩ } none rest n
          | none =>
          match religionMatch l.content with
          | some (v, cm) =>
            charParse fname chars fuel { c1 with religion := some ⟨.pyStr v, cm⟩ } none rest n
          | none =>
          match cultureMatch l.content with
          | some (v, cm) =>
            charParse fname chars fuel { c1 with culture := some ⟨.pyStr v, cm⟩ } none rest n
          | none =>
          match histEntryStartMatch l.content with
          | some (ys, ms, dss) =>
            match he2 : entryParse fname c1.id
                ⟨natOfDigits ys, natOfDigits ms, natOfDigits dss⟩ rest n with
            | .ok r =>
              charParse fname chars fuel
                (afterEntry c1 ⟨natOfDigits ys, natOfDigits ms, natOfDigits dss⟩ r)
                none r.rest r.n_line
            | .error e => .error e
          | none =>
          match histEntryMultiStartMatch l.content with
          | some (ys, ms, dss) =>
            charParse fname chars fuel c1
              (some ⟨natOfDigits ys, natOfDigits ms, natOfDigits dss⟩) rest n
          | none =>
          if charEndMatch l.content then
            match CHFileChar.finalize fname { c1 with is_last_in_file := !l.eol } with
            | .ok c3 => .ok ⟨c3, chars ++ [(c3.id, c3)], rest, n⟩
            | .error e => .error e
          else
            charParse fname chars fuel
              { c1 with elems := c1.elems ++ [.literal l.content] } none rest n

/-- `CHFileChar.parse`: records the record's start line, then runs the line
loop with the brace-wait flag clear. -/
def CHFileChar.parse (fname : List Char) (chars : List (Nat × CHFileChar))
    (c : CHFileChar) (lines : List Line) (n_line : Nat) :
    Except (List Char) CharOut :=
  charParse fname chars (lines.length + 1) { c with start_line := n_line }
    none lines n_line

/-- Every line except possibly the final one carries a terminator — the shape
`readline` guarantees for any actual input stream. -/
def goodLines : List Line → Prop
  | [] => True
  | [_] => True
  | l :: l2 :: rest => l.eol = true ∧ goodLines (l2 :: rest)

theorem goodLines_tail {l : Line} {ls : List Line}
    (h : goodLines (l :: ls)) : goodLines ls := by
  cases ls with
  | nil => trivial
  | cons a t => exact h.2

theorem goodLines_suffix {xs ys : List Line}
    (h : goodLines (xs ++ ys)) : goodLines ys := by
  induction xs with
  | nil => exact h
  | cons x t ih => exact ih (goodLines_tail h)

theorem goodLines_head_eol {l : Line} {ls : List Line}
    (h : goodLines (l :: ls)) (hne : ls ≠ []) : l.eol = true := by
  cases ls with
  | nil => exact absurd rfl hne
  | cons a t => exact h.1

theorem goodLines_prefix_eol {xs ys : List Line}
    (h : goodLines (xs ++ ys)) (hne : ys ≠ []) :
    ∀ l ∈ xs, l.eol = true := by
  induction xs with
  | nil => intro l hl; cases hl
  | cons x t ih =>
    intro l hl
    cases hl with
    | head =>
      refine goodLines_head_eol h ?_
      intro hemp
      exact hne (List.append_eq_nil.mp hemp).2
    | tail _ hmem => exact ih (goodLines_tail h) l hmem

theorem finalize_ok {fname : List Char} {x y : CHFileChar}
    (h : CHFileChar.finalize fname x = .ok y) :
    y = { x with dynasty := some (x.dynasty.getD ⟨.pyInt 0, none⟩) } ∧
      x.culture.isSome ∧ x.name.isSome ∧ x.bdate.isSome := by
  unfold CHFileChar.finalize at h
  dsimp only [] at h
  split at h
  · cases h
  · split at h
    · cases h
    · split at h
      · cases h
      · cases h
        refine ⟨rfl, ?_, ?_, ?_⟩ <;>
          simp_all [Option.isNone_iff_eq_none, Option.isSome_iff_ne_none]

/-- Structure of a successful character parse: a nonempty initial segment of
the input is consumed, the line counter advances by its length, the dirty
flag and the recorded opening line are untouched, and (when every consumed
line except possibly the last is terminated, as `readline` guarantees for
non-final lines) the record's literal copy extends by exactly the consumed
lines, terminated ones as `CHFileLiteral` and an unterminated final one as
`CHFileLiteralPart`. -/
theorem charParse_spec {fname : List Char} {chars : List (Nat × CHFileChar)}
    {fuel : Nat} {c : CHFileChar} {hw : Option DateVal} {lines : List Line}
    {n_line : Nat} {out : CharOut}
    (h : charParse fname chars fuel c hw lines n_line = .ok out)
    (hg : goodLines lines) :
    ∃ cons : List Line, cons ≠ [] ∧ lines = cons ++ out.rest ∧
      out.n_line = n_line + cons.length ∧
      out.c.dirty = c.dirty ∧
      out.c.start_line_literal = c.start_line_literal ∧
      out.c.literal_elems = c.literal_elems ++ cons.map Line.lit := by
  revert h hg
  induction fuel, c, hw, lines, n_line
      using charParse.induct fname chars generalizing out with
  | case1 c histwait lines n_line =>
    intro h hg
    rw [charParse] at h
    cases h
  | case2 fuel c histwait n_line =>
    intro h hg
    rw [charParse.eq_def] at h
    cases h
  | case3 fuel c histwait n_line l rest hoops =>
    intro h hg
    rw [charParse.eq_def] at h
    simp only [if_pos hoops] at h
    cases h
  | case4 fuel c n_line l rest n c1 hoops d hmf r hrec =>
    rename_i ih
    intro h hg
    rw [charParse.eq_def] at h
    simp only [if_neg hoops, if_pos hmf] at h
    split at h
    next r2 heq =>
      rw [hrec] at heq
      cases heq
      obtain ⟨cons2, hne2, hdec2, hn2, hd2, hs2, hl2⟩ :=
        ih h (by
          obtain ⟨econs, he1, -, -⟩ := entryLoop_spec hrec
          exact goodLines_suffix (he1 ▸ goodLines_tail hg))
      obtain ⟨econs, he1, he2, he3⟩ := entryLoop_spec hrec
      refine ⟨l :: econs ++ cons2, by simp, ?_, ?_, ?_, ?_, ?_⟩
      · simp only [List.cons_append, List.append_assoc]
        rw [← hdec2, ← he1]
      · simp only [List.length_cons, List.length_append]
        omega
      · simpa [afterEntry] using hd2
      · simpa [afterEntry] using hs2
      · have heol : ∀ x ∈ econs, x.eol = true := by
          intro x hx
          have : goodLines ((l :: econs) ++ (cons2 ++ out.rest)) := by
            simpa [he1, hdec2] using hg
          exact goodLines_prefix_eol this (by simp [hne2]) x (by simp [hx])
        have hmap : econs.map (fun l => CHElem.literal l.content) =
            econs.map Line.lit := by
          refine List.map_congr_left ?_
          intro x hx
          simp [Line.lit, heol x hx]
        rw [hl2]
        simp only [afterEntry, he2, hmap]
        simp [Line.lit, goodLines_head_eol hg (by simp [he1, hdec2, hne2])]
    next heq =>
      cases h
  | case5 fuel c n_line l rest n c1 hoops d hmf e =>
    rename_i hrec
    intro h hg
    rw [charParse.eq_def] at h
    simp only [if_neg hoops, if_pos hmf] at h
    split at h
    next r2 heq =>
      rw [hrec] at heq
      cases heq
    next heq =>
      cases h
  | case6 fuel c n_line l rest hoops d hmf =>
    intro h hg
    rw [charParse.eq_def] at h
    simp only [if_neg hoops, if_neg hmf] at h
    cases h
  | case7 fuel c n_line l rest n c1 hoops v cm hname =>
    rename_i ih
    intro h hg
    rw [charParse.eq_def] at h
    simp only [if_neg hoops, hname] at h
    obtain ⟨cons2, hne2, hdec2, hn2, hd2, hs2, hl2⟩ := ih h (goodLines_tail hg)
    refine ⟨l :: cons2, by simp, by simp [hdec2], by simp; omega,
      by simpa using hd2, by simpa using hs2, ?_⟩
    rw [hl2]
    simp
  | case8 fuel c n_line l rest n c1 hoops hname hfem =>
    rename_i ih
    intro h hg
    rw [charParse.eq_def] at h
    simp only [if_neg hoops, hname, if_pos hfem] at h
    obtain ⟨cons2, hne2, hdec2, hn2, hd2, hs2, hl2⟩ := ih h (goodLines_tail hg)
    refine ⟨l :: cons2, by simp, by simp [hdec2], by simp; omega,
      by simpa using hd2, by simpa using hs2, ?_⟩
    rw [hl2]
    simp
  | case9 fuel c n_line l rest n c1 hoops hname hfem v cm hdyn =>
    rename_i ih
    intro h hg
    rw [charParse.eq_def] at h
    simp only [if_neg hoops, hname, if_neg hfem, hdyn] at h
    obtain ⟨cons2, hne2, hdec2, hn2, hd2, hs2, hl2⟩ := ih h (goodLines_tail hg)
    refine ⟨l :: cons2, by simp, by simp [hdec2], by simp; omega,
      by simpa using hd2, by simpa using hs2, ?_⟩
    rw [hl2]
    simp
  | case10 fuel c n_line l rest n c1 hoops hname hfem hdyn v cm hrel =>
    rename_i ih
    intro h hg
    rw [charParse.eq_def] at h
    simp only [if_neg hoops, hname, if_neg hfem, hdyn, hrel] at h
    obtain ⟨cons2, hne2, hdec2, hn2, hd2, hs2, hl2⟩ := ih h (goodLines_tail hg)
    refine ⟨l :: cons2, by simp, by simp [hdec2], by simp; omega,
      by simpa using hd2, by simpa using hs2, ?_⟩
    rw [hl2]
    simp
  | case11 fuel c n_line l rest n c1 hoops hname hfem hdyn hrel v cm hcul =>
    rename_i ih
    intro h hg
    rw [charParse.eq_def] at h
    simp only [if_neg hoops, hname, if_neg hfem, hdyn, hrel, hcul] at h
    obtain ⟨cons2, hne2, hdec2, hn2, hd2, hs2, hl2⟩ := ih h (goodLines_tail hg)
    refine ⟨l :: cons2, by simp, by simp [hdec2], by simp; omega,
      by simpa using hd2, by simpa using hs2, ?_⟩
    rw [hl2]
    simp
  | case12 fuel c n_line l rest n c1 hoops hname hfem hdyn hrel hcul ys ms dss hstart r hrec =>
    rename_i ih
    intro h hg
    rw [charParse.eq_def] at h
    simp only [if_neg hoops, hname, if_neg hfem, hdyn, hrel, hcul, hstart] at h
    split at h
    next r2 heq =>
      rw [hrec] at heq
      cases heq
      obtain ⟨cons2, hne2, hdec2, hn2, hd2, hs2, hl2⟩ :=
        ih h (by
          obtain ⟨econs, he1, -, -⟩ := entryLoop_spec hrec
          exact goodLines_suffix (he1 ▸ goodLines_tail hg))
      obtain ⟨econs, he1, he2, he3⟩ := entryLoop_spec hrec
      refine ⟨l :: econs ++ cons2, by simp, ?_, ?_, ?_, ?_, ?_⟩
      · simp only [List.cons_append, List.append_assoc]
        rw [← hdec2, ← he1]
      · simp only [List.length_cons, List.length_append]
        omega
      · simpa [afterEntry] using hd2
      · simpa [afterEntry] using hs2
      · have heol : ∀ x ∈ econs, x.eol = true := by
          intro x hx
          have : goodLines ((l :: econs) ++ (cons2 ++ out.rest)) := by
            simpa [he1, hdec2] using hg
          exact goodLines_prefix_eol this (by simp [hne2]) x (by simp [hx])
        have hmap : econs.map (fun l => CHElem.literal l.content) =
            econs.map Line.lit := by
          refine List.map_congr_left ?_
          intro x hx
          simp [Line.lit, heol x hx]
        rw [hl2]
        simp only [afterEntry, he2, hmap]
        simp [Line.lit, goodLines_head_eol hg (by simp [he1, hdec2, hne2])]
    next heq =>
      cases h
  | case13 fuel c n_line l rest n c1 hoops hname hfem hdyn hrel hcul ys ms dss hstart e =>
    rename_i hrec
    intro h hg
    rw [charParse.eq_def] at h
    simp only [if_neg hoops, hname, if_neg hfem, hdyn, hrel, hcul, hstart] at h
    split at h
    next r2 heq =>
      rw [hrec] at heq
      cases heq
    next heq =>
      cases h
  | case14 fuel c n_line l rest n c1 hoops hname hfem hdyn hrel hcul hstart ys ms dss hmulti =>
    rename_i ih
    intro h hg
    rw [charParse.eq_def] at h
    simp only [if_neg hoops, hname, if_neg hfem, hdyn, hrel, hcul, hstart, hmulti] at h
    obtain ⟨cons2, hne2, hdec2, hn2, hd2, hs2, hl2⟩ := ih h (goodLines_tail hg)
    refine ⟨l :: cons2, by simp, by simp [hdec2], by simp; omega,
      by simpa using hd2, by simpa using hs2, ?_⟩
    rw [hl2]
    simp
  | case15 fuel c n_line l rest c1 hoops hname hfem hdyn hrel hcul hstart hmulti hend c3 =>
    rename_i heqf
    intro h hg
    rw [charParse.eq_def] at h
    simp only [if_neg hoops, hname, if_neg hfem, hdyn, hrel, hcul, hstart,
      hmulti, if_pos hend] at h
    rw [heqf] at h
    cases h
    obtain ⟨hy, -, -, -⟩ := finalize_ok heqf
    refine ⟨[l], by simp, by simp, by simp, ?_, ?_, ?_⟩
    · simp [hy]
    · simp [hy]
    · simp [hy]
  | case16 fuel c n_line l rest c1 hoops hname hfem hdyn hrel hcul hstart hmulti hend e =>
    rename_i heqf
    intro h hg
    rw [charParse.eq_def] at h
    simp only [if_neg hoops, hname, if_neg hfem, hdyn, hrel, hcul, hstart,
      hmulti, if_pos hend] at h
    rw [heqf] at h
    cases h
  | case17 fuel c n_line l rest n c1 hoops hname hfem hdyn hrel hcul hstart hmulti hend =>
    rename_i ih
    intro h hg
    rw [charParse.eq_def] at h
    simp only [if_neg hoops, hname, if_neg hfem, hdyn, hrel, hcul, hstart,
      hmulti, if_neg hend] at h
    obtain ⟨cons2, hne2, hdec2, hn2, hd2, hs2, hl2⟩ := ih h (goodLines_tail hg)
    refine ⟨l :: cons2, by simp, by simp [hdec2], by simp; omega,
      by simpa using hd2, by simpa using hs2, ?_⟩
    rw [hl2]
    simp

/-- The scan loop of `CHFile.parse`: every top-level line is a character
start, a bare comment or blank line, or a fatal unexpected token.  The
database character index (`ch.chars`) is threaded through; the duplicate-id
check happens at the second record's start line, while registration happened
at the first record's closing brace. -/
def fileParseLoop (fname : List Char) :
    Nat → List (Nat × CHFileChar) → List Line → Nat →
      Except (List Char) (List CHTopElem × List (Nat × CHFileChar) × Nat)
  | 0, _, _, _ => .error fuelMsg
  | fuel + 1, chars, lines, n_line =>
    match lines with
    | [] => .ok ([], chars, n_line)
    | l :: rest =>
      let n := n_line + 1
      match charStartMatch l.content with
      | some (id, cmt) =>
        if charsMem chars id then .error (msgDup fname n)
        else
          match CHFileChar.parse fname chars
              (CHFileChar.mkInit id l.content cmt) rest n with
          | .ok out =>
            match fileParseLoop fname fuel out.chars out.rest out.n_line with
            | .ok (es, chs, nl) => .ok (.char out.c :: es, chs, nl)
            | .error e => .error e
          | .error e => .error e
      | none =>
        if bareCommentOrBlankMatch l.content then
          match fileParseLoop fname fuel chars rest n with
          | .ok (es, chs, nl) => .ok (.lit l.lit :: es, chs, nl)
          | .error e => .error e
        else .error (msgUnexpected fname n)

/-- `CHFile.parse`: splits the decoded file text into `readline` results and
scans them from line counter 0. -/
def chFileParse (fname : List Char) (chars : List (Nat × CHFileChar))
    (text : List Char) :
    Except (List Char) (List CHTopElem × List (Nat × CHFileChar) × Nat) :=
  fileParseLoop fname ((linesOf text).length + 1) chars (linesOf text) 0

/-- `class CharHistory`: the parsed files (in parse order) and the character
index shared across files.  (The `chars_by_dynasty` grouping is not modelled;
no claim concerns it.) -/
structure CharHistory where
  files : List (List Char × List CHTopElem)
  chars : List (Nat × CHFileChar)
  deriving DecidableEq

/-- `CharHistory.parse_file`: reject a duplicate filename, else parse the
file's text and record the result. -/
def CharHistory.parse_file (ch : CharHistory) (fname text : List Char) :
    Except (List Char) CharHistory :=
  if ch.files.any (fun p => p.1 = fname) then .error (msgConflict fname)
  else
    match chFileParse fname ch.chars text with
    | .ok (es, chars2, _) => .ok ⟨ch.files ++ [(fname, es)], chars2⟩
    | .error e => .error e

/-- Sequential `parse_file` calls over a list of (filename, text) pairs, as
`CharHistory.parse_dir` performs for each matching directory entry. -/
def parseFiles (ch : CharHistory) :
    List (List Char × List Char) → Except (List Char) CharHistory
  | [] => .ok ch
  | (fname, text) :: rest =>
    match ch.parse_file fname text with
    | .ok ch2 => parseFiles ch2 rest
    | .error e => .error e

/-- Terminator-normalized rendering of a line list. -/
def joinNorm (ls : List Line) : List Char := (ls.map Line.norm).flatten

theorem rewrite_lit (l : Line) : CHElem.rewrite l.lit = l.norm := by
  by_cases h : l.eol <;> simp [Line.lit, Line.norm, CHElem.rewrite, h]

theorem goodLines_cons_true {s : List Char} {ls : List Line}
    (h : goodLines ls) : goodLines (⟨s, true⟩ :: ls) := by
  cases ls with
  | nil => trivial
  | cons a t => exact ⟨rfl, h⟩

theorem goodLines_linesOfAux (acc t : List Char) :
    goodLines (linesOfAux acc t) := by
  induction acc, t using linesOfAux.induct with
  | case1 acc ha =>
    simp only [linesOfAux, ha, if_true]
    trivial
  | case2 acc ha =>
    simp only [linesOfAux, ha, if_false]
    trivial
  | case3 acc r ih =>
    rw [linesOfAux]
    exact goodLines_cons_true ih
  | case4 acc r hsh ih =>
    rw [linesOfAux]
    · exact goodLines_cons_true ih
    · exact hsh
  | case5 acc r ih =>
    rw [linesOfAux]
    exact goodLines_cons_true ih
  | case6 acc c r hsh hc1 hc2 ih =>
    rw [linesOfAux]
    · exact ih
    · exact hsh
    · exact hc1
    · exact hc2

theorem goodLines_linesOf (t : List Char) : goodLines (linesOf t) :=
  goodLines_linesOfAux [] t

theorem joinNorm_linesOfAux (acc t : List Char) :
    joinNorm (linesOfAux acc t) = acc.reverse ++ normalize t := by
  induction acc, t using linesOfAux.induct with
  | case1 acc ha =>
    rw [linesOfAux, normalize]
    simp [joinNorm, ha, List.isEmpty_iff.mp ha]
  | case2 acc ha =>
    rw [linesOfAux, normalize]
    simp [joinNorm, ha, Line.norm]
  | case3 acc r ih =>
    rw [linesOfAux, normalize]
    simp only [joinNorm, List.map_cons, List.flatten_cons] at ih ⊢
    simp [ih, Line.norm]
  | case4 acc r hsh ih =>
    rw [linesOfAux]
    · rw [normalize]
      · simp only [joinNorm, List.map_cons, List.flatten_cons] at ih ⊢
        simp [ih, Line.norm]
      · exact hsh
    · exact hsh
  | case5 acc r ih =>
    rw [linesOfAux, normalize]
    simp only [joinNorm, List.map_cons, List.flatten_cons] at ih ⊢
    simp [ih, Line.norm]
  | case6 acc c r hsh hc1 hc2 ih =>
    rw [linesOfAux]
    · rw [normalize]
      · rw [ih]
        simp
      · exact hsh
      · exact hc1
      · exact hc2
    · exact hsh
    · exact hc1
    · exact hc2

theorem joinNorm_linesOf (t : List Char) :
    joinNorm (linesOf t) = normalize t := by
  simpa using joinNorm_linesOfAux [] t

/-- Non-dirty rendering of a successfully parsed file: every element rewrite
succeeds and the concatenation is the terminator-normalized input. -/
theorem fileParse_render {fname : List Char} {fuel : Nat}
    {chars : List (Nat × CHFileChar)} {lines : List Line} {n_line : Nat}
    {es : List CHTopElem} {chs : List (Nat × CHFileChar)} {nl : Nat}
    (h : fileParseLoop fname fuel chars lines n_line = .ok (es, chs, nl))
    (hg : goodLines lines) :
    renderFile es = some (joinNorm lines) := by
  revert h hg
  induction fuel, chars, lines, n_line
      using fileParseLoop.induct fname generalizing es chs nl with
  | case1 chars lines n_line =>
    intro h hg
    rw [fileParseLoop] at h
    cases h
  | case2 fuel chars n_line =>
    intro h hg
    rw [fileParseLoop.eq_def] at h
    cases h
    simp [renderFile, joinNorm]
  | case3 fuel chars n_line l rest id cmt hsm =>
    rename_i hdup
    intro h hg
    rw [fileParseLoop.eq_def] at h
    simp only [hsm, if_pos hdup] at h
    cases h
  | case4 fuel chars n_line l rest n id cmt hsm hdup out hp es2 chs2 nl2 hrec =>
    rename_i ih
    intro h hg
    rw [fileParseLoop.eq_def] at h
    simp only [hsm, if_neg hdup] at h
    split at h
    next out2 heq =>
      rw [hp] at heq
      cases heq
      rw [hrec] at h
      cases h
      obtain ⟨cons, hne, hdec, hn, hd, hs, hl⟩ :=
        charParse_spec hp (goodLines_tail hg)
      have hrest_good : goodLines out.rest :=
        goodLines_suffix (hdec ▸ goodLines_tail hg)
      have hrender := ih hrec hrest_good
      have hleol : l.eol = true := by
        refine goodLines_head_eol hg ?_
        rw [hdec]
        simp [hne]
      have hd2 : out.c.dirty = false := by
        simpa [CHFileChar.mkInit] using hd
      have hs2 : out.c.start_line_literal = CHElem.literal l.content := by
        simpa [CHFileChar.mkInit] using hs
      have hl2 : out.c.literal_elems = cons.map Line.lit := by
        simpa [CHFileChar.mkInit] using hl
      have hcrw : CHFileChar.rewrite out.c =
          some (l.content ++ '\n' :: joinNorm cons) := by
        rw [CHFileChar.rewrite, hd2, hs2, hl2]
        simp [CHElem.rewrite, joinNorm, List.map_map, Function.comp,
          rewrite_lit]
        exact congrArg List.flatten (List.map_congr_left fun x _ => rewrite_lit x)
      rw [renderFile]
      simp only [CHTopElem.rewrite, hcrw, hrender]
      rw [hdec]
      simp [joinNorm, Line.norm, hleol]
    next heq =>
      rw [hp] at heq
      cases heq
  | case5 fuel chars n_line l rest n id cmt hsm hdup out hp e hrec =>
    rename_i ih
    intro h hg
    rw [fileParseLoop.eq_def] at h
    simp only [hsm, if_neg hdup] at h
    split at h
    next out2 heq =>
      rw [hp] at heq
      cases heq
      rw [hrec] at h
      cases h
    next heq =>
      rw [hp] at heq
      cases heq
  | case6 fuel chars n_line l rest n id cmt hsm hdup e =>
    rename_i hperr
    intro h hg
    rw [fileParseLoop.eq_def] at h
    simp only [hsm, if_neg hdup] at h
    split at h
    next out2 heq =>
      rw [hperr] at heq
      cases heq
    next heq =>
      cases h
  | case7 fuel chars n_line l rest n hsm hbare es2 chs2 nl2 hrec =>
    rename_i ih
    intro h hg
    rw [fileParseLoop.eq_def] at h
    simp only [hsm, if_pos hbare, hrec] at h
    cases h
    have hrender := ih hrec (goodLines_tail hg)
    rw [renderFile]
    simp only [CHTopElem.rewrite, hrender]
    simp [joinNorm, rewrite_lit]
  | case8 fuel chars n_line l rest n hsm hbare e hrec =>
    rename_i ih
    intro h hg
    rw [fileParseLoop.eq_def] at h
    simp only [hsm, if_pos hbare, hrec] at h
    cases h
  | case9 fuel chars n_line l rest hsm =>
    rename_i hbad
    intro h hg
    rw [fileParseLoop.eq_def] at h
    simp only [hsm, if_neg hbad] at h
    cases h

/-- C1: for every well-formed input source (one that `CHFile.parse` accepts),
parsing into the database and rewriting without marking any character dirty
(parsing never sets the dirty flag) produces output identical to the original
content byte-for-byte, except that every line terminator (`\n`, `\r\n`,
`\r`) is normalized to a single `\n`.  Text is modelled post-decoding; the
fixed cp1252 input/output encoding pair is identity on the modelled text. -/
theorem c1_round_trip_identity (fname text : List Char)
    (es : List CHTopElem) (chs : List (Nat × CHFileChar)) (nl : Nat)
    (h : chFileParse fname [] text = .ok (es, chs, nl)) :
    renderFile es = some (normalize text) := by
  rw [← joinNorm_linesOf]
  exact fileParse_render h (goodLines_linesOf text)

/-- A concrete character-history source exercising comments, blank lines,
mixed CRLF/LF terminators, quoted and unquoted values, inline comments, an
unrecognized field, both nested-entry opener forms, and a terminator-less
final line. -/
def c1Text : List Char :=
  ("# top comment\r\n\r\n1 = \x7b  # opener cmt\n\tname=\"Bob\"  # c1\n\tfemale=yes\n\tdynasty=105\n\treligion = catholic\n\tculture=\"norse\"\n\tunknown_field = 7\n\t900.1.1 = \x7b\n\t\tbirth=\"900.1.1\"\n\t\x7d\n\t901.2.2 =\n\t\x7b\n\t\tadd_trait = brave\n\t\x7d\n\x7d").data

/-- The payload of a successful file parse (arbitrary default on error). -/
def exOk :
    Except (List Char) (List CHTopElem × List (Nat × CHFileChar) × Nat) →
      List CHTopElem × List (Nat × CHFileChar) × Nat
  | .ok v => v
  | .error _ => ([], [], 0)

/-- Whether a file parse succeeded. -/
def isOkB :
    Except (List Char) (List CHTopElem × List (Nat × CHFileChar) × Nat) → Bool
  | .ok _ => true
  | .error _ => false

/-- A fixed filename for the concrete examples. -/
def fname0 : List Char := ("t.txt").data

/-- The character of a one-record parse result (arbitrary default otherwise). -/
def soleChar : List CHTopElem → CHFileChar
  | [.char c] => c
  | _ => CHFileChar.mkInit 0 [] none

/-- The single character record parsed from a concrete source text. -/
def parsedChar (text : List Char) : CHFileChar :=
  soleChar (exOk (chFileParse fname0 [] text)).1

theorem c1_round_trip_identity_witness :
    renderFile (exOk (chFileParse ("t.txt").data [] c1Text)).1 =
      some (normalize c1Text) :=
  c1_round_trip_identity ("t.txt").data c1Text
    (exOk (chFileParse ("t.txt").data [] c1Text)).1
    (exOk (chFileParse ("t.txt").data [] c1Text)).2.1
    (exOk (chFileParse ("t.txt").data [] c1Text)).2.2 (by rfl)

end HistoryPy

namespace HistoryPy

/-- Source of a record with no `dynasty` field (so `_finalize` defaults it to
the lowborn dynasty `0`). -/
def c3Text : List Char :=
  ("2 = \x7b\nname=x\nreligion=z\nculture=y\n900.1.1=\x7b\nbirth=yes\n\x7d\n\x7d\n").data

/-- C3: the claim says a dirty rewrite emits a dynasty line iff the dynasty is
nonzero, and in particular a dynasty-absent (lowborn, 0) record gets no
dynasty line.  The code disagrees: the guard `self.dynasty.val != u'0'`
compares the int `0` with the unicode string `u'0'`, which are never equal in
Python 2, so the guard is always true and `dynasty=0` is printed — despite
the adjacent comment "Don't print explicit dynasty info for lowborns".  This
theorem exhibits the always-true guard and a dynasty-absent record whose
dirty rewrite contains the line `\tdynasty=0`. -/
theorem c3_dynasty_zero_still_emitted :
    (∀ n : Nat, pyNe (.pyInt n) (.pyStr ['0']) = true) ∧
    isOkB (chFileParse fname0 [] c3Text) = true ∧
    (parsedChar c3Text).dynasty = some ⟨.pyInt 0, none⟩ ∧
    CHFileChar.rewrite { parsedChar c3Text with dirty := true } =
      some (("2 = \x7b\n\tname=\"x\"\n\tdynasty=0\n\treligion=\"z\"\n\tculture=\"y\"\n\t900.1.1 = \x7b\n\t\tbirth=yes\n\x7d\n\x7d\n").data) :=
  ⟨fun _ => rfl, by rfl, by rfl, by rfl⟩

/-- Source of a record with no `religion` field. -/
def c9Text : List Char :=
  ("1 = \x7b\nname=x\nculture=y\n900.1.1=\x7b\nbirth=yes\n\x7d\n\x7d\n").data

/-- C9: `_finalize` does not require `religion`, so a record without one
parses and finalizes successfully (and its non-dirty rewrite works), but the
dirty rewrite path reads `self.religion` unconditionally and so fails on it
(`AttributeError`, modelled by `none`): religion is an undeclared
precondition of dirty rewrite but not of parsing. -/
theorem c9_religion_undeclared_dirty_precondition :
    (∀ c : CHFileChar, c.dirty = true → c.religion = none →
      CHFileChar.rewrite c = none) ∧
    isOkB (chFileParse fname0 [] c9Text) = true ∧
    (parsedChar c9Text).religion = none ∧
    (CHFileChar.rewrite (parsedChar c9Text)).isSome = true ∧
    CHFileChar.rewrite { parsedChar c9Text with dirty := true } = none := by
  refine ⟨?_, by rfl, by rfl, by rfl, by rfl⟩
  intro c hd hr
  cases hn : c.name <;> cases hdy : c.dynasty <;> cases hc : c.culture <;>
    simp [CHFileChar.rewrite, hd, hr, hn, hdy, hc]

theorem c9_religion_undeclared_dirty_precondition_witness :
    CHFileChar.rewrite { parsedChar c9Text with dirty := true } = none :=
  c9_religion_undeclared_dirty_precondition.1
    { parsedChar c9Text with dirty := true } rfl (by rfl)

end HistoryPy

namespace HistoryPy

theorem isSpaceCh_cases {c : Char} (h : isSpaceCh c = true) :
    c = ' ' ∨ c = '\t' ∨ c = '\n' ∨ c = '\r' ∨ c = '\x0b' ∨ c = '\x0c' := by
  have := h
  simp [isSpaceCh] at this
  tauto

theorem dropWhile_ws_append {w s : List Char}
    (hw : ∀ c ∈ w, isSpaceCh c = true) :
    (w ++ s).dropWhile isSpaceCh = s.dropWhile isSpaceCh := by
  induction w with
  | nil => rfl
  | cons a t ih =>
    simp only [List.cons_append, List.dropWhile_cons, hw a (by simp), if_true]
    exact ih fun c hc => hw c (by simp [hc])

theorem oneLineOneBlock_of_no_open {l : List Char}
    (h : ∀ c ∈ l, ¬c = '{') : oneLineOneBlockMatch l = false := by
  unfold oneLineOneBlockMatch
  have : (l.takeWhile (fun c => c ≠ '#')).findIdx? (fun c => c = '{') = none := by
    rw [List.findIdx?_eq_none_iff]
    intro x hx
    have hxl : x ∈ l := by
      have hpre := List.takeWhile_prefix (l := l) (fun c => decide (c ≠ '#'))
      exact hpre.mem hx
    simp [h x hxl]
  rw [this]

/-- A line of the form `\s*female\s*=\s*no\s*` (the `female` pattern with
value `no`), given by its whitespace chunks. -/
def mkFemaleNoLine (w1 w2 w3 w4 : List Char) : List Char :=
  w1 ++ ("female").data ++ w2 ++ '=' :: w3 ++ ("no").data ++ w4

end HistoryPy


namespace HistoryPy

/-- Source containing a `female = no` line. -/
def c10Text : List Char :=
  ("3 = \x7b\nname=x\nreligion=z\nculture=y\nfemale = no\n900.1.1=\x7b\nbirth=yes\n\x7d\n\x7d\n").data

theorem mkFemaleNoLine_dropWhile (w1 w2 w3 w4 : List Char)
    (hw1 : ∀ c ∈ w1, isSpaceCh c = true) :
    (mkFemaleNoLine w1 w2 w3 w4).dropWhile isSpaceCh =
      'f' :: 'e' :: 'm' :: 'a' :: 'l' :: 'e' ::
        (w2 ++ ('=' :: (w3 ++ (("no").data ++ w4)))) := by
  unfold mkFemaleNoLine
  simp only [List.append_assoc, List.cons_append]
  rw [dropWhile_ws_append hw1]
  rfl

end HistoryPy

namespace HistoryPy

theorem mkFemaleNoLine_female (w1 w2 w3 w4 : List Char)
    (hw1 : ∀ c ∈ w1, isSpaceCh c = true) (hw2 : ∀ c ∈ w2, isSpaceCh c = true)
    (hw3 : ∀ c ∈ w3, isSpaceCh c = true) (hw4 : ∀ c ∈ w4, isSpaceCh c = true) :
    femaleMatch (mkFemaleNoLine w1 w2 w3 w4) = some false := by
  unfold femaleMatch
  rw [mkFemaleNoLine_dropWhile w1 w2 w3 w4 hw1]
  simp only [stripLit, reduceIte]
  rw [dropWhile_ws_append hw2]
  simp only [List.dropWhile_cons, show isSpaceCh ('=') = false from rfl,
    Bool.false_eq_true, if_false]
  rw [dropWhile_ws_append hw3]
  simp only [List.cons_append, List.dropWhile_cons,
    show isSpaceCh ('n') = false from rfl, Bool.false_eq_true, if_false,
    stripLit, reduceIte, Char.reduceEq, List.append_eq, List.nil_append,
    List.all_eq_true.mpr hw4, if_true]

end HistoryPy

namespace HistoryPy

/-- C10: a line of the form `female = no` (with any surrounding whitespace)
matches the female pattern with captured value `no`, but the parser only
consumes the line as the female field when the captured group equals `yes`:
here it falls through every other classifier and is retained as an
unrecognized literal element, leaving the female flag false; on canonical
(dirty) rewrite the line is emitted verbatim among the retained elements
after the culture line rather than being normalized into a female field. -/
theorem c10_female_no_retained_as_literal :
    (∀ w1 w2 w3 w4 : List Char,
      (∀ c ∈ w1, isSpaceCh c = true) → (∀ c ∈ w2, isSpaceCh c = true) →
      (∀ c ∈ w3, isSpaceCh c = true) → (∀ c ∈ w4, isSpaceCh c = true) →
      femaleMatch (mkFemaleNoLine w1 w2 w3 w4) = some false ∧
      (∀ fname chars fuel c eol rest n_line,
        charParse fname chars (fuel + 1) c none
            (⟨mkFemaleNoLine w1 w2 w3 w4, eol⟩ :: rest) n_line =
          charParse fname chars fuel
            { c with
                literal_elems :=
                  c.literal_elems ++ [Line.lit ⟨mkFemaleNoLine w1 w2 w3 w4, eol⟩],
                elems := c.elems ++ [.literal (mkFemaleNoLine w1 w2 w3 w4)] }
            none rest (n_line + 1))) ∧
    (parsedChar c10Text).female = false ∧
    (parsedChar c10Text).elems = [.literal (("female = no").data)] ∧
    CHFileChar.rewrite { parsedChar c10Text with dirty := true } =
      some (("3 = \x7b\n\tname=\"x\"\n\tdynasty=0\n\treligion=\"z\"\n\tculture=\"y\"\nfemale = no\n\t900.1.1 = \x7b\n\t\tbirth=yes\n\x7d\n\x7d\n").data) := by
  refine ⟨?_, by rfl, by rfl, by rfl⟩
  intro w1 w2 w3 w4 hw1 hw2 hw3 hw4
  have hd1 := mkFemaleNoLine_dropWhile w1 w2 w3 w4 hw1
  have hfem := mkFemaleNoLine_female w1 w2 w3 w4 hw1 hw2 hw3 hw4
  have hname : nameMatch (mkFemaleNoLine w1 w2 w3 w4) = none := by
    unfold nameMatch keyValCmtMatch
    rw [hd1]
    rfl
  have hdyn : dynastyMatch (mkFemaleNoLine w1 w2 w3 w4) = none := by
    unfold dynastyMatch
    rw [hd1]
    rfl
  have hrel : religionMatch (mkFemaleNoLine w1 w2 w3 w4) = none := by
    unfold religionMatch keyValCmtMatch
    rw [hd1]
    rfl
  have hcul : cultureMatch (mkFemaleNoLine w1 w2 w3 w4) = none := by
    unfold cultureMatch keyValCmtMatch
    rw [hd1]
    rfl
  have hdate : dateEqPrefix (mkFemaleNoLine w1 w2 w3 w4) = none := by
    unfold dateEqPrefix dateComponent
    rw [hd1]
    rfl
  have hstart : histEntryStartMatch (mkFemaleNoLine w1 w2 w3 w4) = none := by
    unfold histEntryStartMatch
    rw [hdate]
  have hmulti : histEntryMultiStartMatch (mkFemaleNoLine w1 w2 w3 w4) = none := by
    unfold histEntryMultiStartMatch
    rw [hdate]
  have hend : charEndMatch (mkFemaleNoLine w1 w2 w3 w4) = false := by
    unfold mkFemaleNoLine charEndMatch
    cases hcase : w1 with
    | nil => rfl
    | cons a t =>
      rcases isSpaceCh_cases (hw1 a (by simp [hcase])) with
        rfl | rfl | rfl | rfl | rfl | rfl <;> rfl
  have hoops : oneLineOneBlockMatch (mkFemaleNoLine w1 w2 w3 w4) = false := by
    refine oneLineOneBlock_of_no_open ?_
    intro ch hch
    simp only [mkFemaleNoLine, List.mem_append, List.mem_cons] at hch
    rcases hch with ((((h1 | h2) | h3) | h4) | h5) | h6
    · rcases isSpaceCh_cases (hw1 ch h1) with rfl|rfl|rfl|rfl|rfl|rfl <;> decide
    · rcases h2 with rfl|rfl|rfl|rfl|rfl|rfl|h2 <;>
        first | decide | exact absurd h2 (by simp)
    · rcases isSpaceCh_cases (hw2 ch h3) with rfl|rfl|rfl|rfl|rfl|rfl <;> decide
    · rcases h4 with rfl | h4
      · decide
      · rcases isSpaceCh_cases (hw3 ch h4) with rfl|rfl|rfl|rfl|rfl|rfl <;> decide
    · rcases h5 with rfl|rfl|h5 <;>
        first | decide | exact absurd h5 (by simp)
    · rcases isSpaceCh_cases (hw4 ch h6) with rfl|rfl|rfl|rfl|rfl|rfl <;> decide
  refine ⟨hfem, ?_⟩
  intro fname chars fuel c eol rest n_line
  rw [charParse.eq_def]
  simp only [hoops, hname, hfem, hdyn, hrel, hcul, hstart, hmulti, hend,
    Bool.false_eq_true, if_false, reduceCtorEq, Option.some.injEq]

end HistoryPy

namespace HistoryPy

/-- Witness for C10 at concrete whitespace paddings. -/
theorem c10_female_no_retained_as_literal_witness :
    femaleMatch (mkFemaleNoLine [] [' '] [' '] []) = some false :=
  (c10_female_no_retained_as_literal.1 [] [' '] [' '] []
    (by decide) (by decide) (by decide) (by decide)).1

end HistoryPy

namespace HistoryPy

/-- Source with two birth markers inside the same history entry. -/
def c4aT : List Char :=
  ("5 = \x7b\nname=x\nreligion=z\nculture=y\n900.1.1=\x7b\nbirth=yes\nbirth=yes\n\x7d\n\x7d\n").data

/-- Source with one birth marker in each of two history entries. -/
def c4bT : List Char :=
  ("5 = \x7b\nname=x\nreligion=z\nculture=y\n900.1.1=\x7b\nbirth=yes\n\x7d\n901.2.3=\x7b\nbirth=yes\n\x7d\n\x7d\n").data

/-- C4: a birth marker at nesting depth 1 of a history entry sets that
entry's date as the record's birth date (via `afterEntry`); inside one entry
a second birth marker is a fatal `msgMultiBirth` error (the entry loop at
depth 1 with the birth flag already set fails on any line matching the birth
pattern); concretely, two markers in the same entry abort the parse naming
the second marker's line, while one marker in each of two entries parses
fine, the record's birth date being the last such entry's date. -/
theorem c4_birth_per_entry :
    (∀ c d r, r.birth = true → (afterEntry c d r).bdate = some d) ∧
    (∀ fname chId date fuel buf lines n_line g,
      birthMatch buf = some g →
      entryLoop fname chId date (fuel + 1) 1 true buf lines n_line =
        .error (msgMultiBirth chId fname n_line)) ∧
    chFileParse fname0 [] c4aT = .error (msgMultiBirth 5 fname0 7) ∧
    isOkB (chFileParse fname0 [] c4bT) = true ∧
    (parsedChar c4bT).bdate = some ⟨901, 2, 3⟩ := by
  refine ⟨?_, ?_, by rfl, by rfl, by rfl⟩
  · intro c d r hr
    simp [afterEntry, hr]
  · intro fname chId date fuel buf lines n_line g hb
    have hne : buf.isEmpty = false := by
      cases buf with
      | nil => simp [birthMatch, stripLit] at hb
      | cons a t => rfl
    rw [entryLoop.eq_def]
    simp [hne, hb]

/-- Witness for C4 at concrete inputs. -/
theorem c4_birth_per_entry_witness :
    (afterEntry (CHFileChar.mkInit 0 [] none) ⟨900, 1, 1⟩
        ⟨[], true, [], [], 0⟩).bdate = some ⟨900, 1, 1⟩ ∧
    entryLoop fname0 5 ⟨900, 1, 1⟩ 1 1 true (("birth=yes").data) [] 6 =
      .error (msgMultiBirth 5 fname0 6) :=
  ⟨c4_birth_per_entry.1 (CHFileChar.mkInit 0 [] none) ⟨900, 1, 1⟩
      ⟨[], true, [], [], 0⟩ rfl,
    c4_birth_per_entry.2.1 fname0 5 ⟨900, 1, 1⟩ 0 (("birth=yes").data) [] 6
      (some (("yes").data)) (by rfl)⟩

end HistoryPy

namespace HistoryPy

/-- Net brace balance of a text: occurrences of the opening brace minus
occurrences of the closing brace. -/
def braceBalance (s : List Char) : Int :=
  (s.count '\x7b' : Int) - s.count '\x7d'

/-- Balanced source: the entry body opens one extra block and closes both
braces on one physical line. -/
def c5aT : List Char :=
  ("7 = \x7b\nname=x\nculture=y\n900.1.1 = \x7b\nbirth=yes\n\x7b\n\x7d \x7d\n\x7d\n").data

/-- Unbalanced source: three opening braces on one line but only two closing
lines inside the entry, so two blocks are never closed. -/
def c5bT : List Char :=
  ("9 = \x7b\nname=x\nculture=y\n900.1.1 = \x7b\nbirth=yes\n\x7b \x7b \x7b\n\x7d\n\x7d\n\x7d\n").data

/-- C5 counterexample: the entry parser's brace patterns (greedy
`^([^\x7d]*)\x7b` and `^([^\x7b]*)\x7d`, translated as a match through the
last brace of the run) count a whole run of same-kind braces on one line as
a single brace.  Hence a perfectly balanced source (`braceBalance = 0`,
first two conjuncts) fails with the unexpected-EOF unterminated-block error,
while a source with two unclosed blocks (`braceBalance = 2`, next two
conjuncts) parses without error.  The last two conjuncts exhibit the
mechanism: a line with three opening braces is consumed as one open, and a
line with two closing braces as one close. -/
theorem c5_brace_nesting_miscount :
    braceBalance c5aT = 0 ∧
    chFileParse fname0 [] c5aT = .error (msgEOF 7 fname0 8) ∧
    braceBalance c5bT = 2 ∧
    isOkB (chFileParse fname0 [] c5bT) = true ∧
    openBraceMatch (("\x7b \x7b \x7b").data) = some ((("\x7b \x7b \x7b").data), []) ∧
    closeBraceMatch (("\x7d \x7d").data) = some ((("\x7d \x7d").data), []) :=
  ⟨by decide, by rfl, by decide, by rfl, by rfl, by rfl⟩

end HistoryPy

namespace HistoryPy

/-- A one-record source with character ID 4 and the given one-letter name. -/
def c6Rec (nm : Char) : List Char :=
  ("4 = \x7b\nname=").data ++ [nm] ++
    ("\nculture=y\n900.1.1=\x7b\nbirth=yes\n\x7d\n\x7d\n").data

/-- Two records with the same ID 4 in one source. -/
def c6aT : List Char := c6Rec 'x' ++ c6Rec 'w'

/-- C6: whenever the file scanner meets a record-opening line whose ID is
already registered in the shared character index, it fails with the
duplicate-ID error naming the current file and the line of the second
occurrence (first conjunct, for any state of the index, so equally for
duplicates within one file and across files of one database); concretely, a
same-file duplicate aborts at the second record's opening line, and parsing
two files whose records share an ID aborts naming the second file and its
line 1. -/
theorem c6_duplicate_id_fatal :
    (∀ fname fuel chars l rest n_line id cmt,
      charStartMatch l.content = some (id, cmt) →
      charsMem chars id = true →
      fileParseLoop fname (fuel + 1) chars (l :: rest) n_line =
        .error (msgDup fname (n_line + 1))) ∧
    chFileParse fname0 [] c6aT = .error (msgDup fname0 8) ∧
    parseFiles ⟨[], []⟩
        [((("a.txt").data), c6Rec 'x'), ((("b.txt").data), c6Rec 'w')] =
      .error (msgDup (("b.txt").data) 1) := by
  refine ⟨?_, by rfl, by rfl⟩
  intro fname fuel chars l rest n_line id cmt h1 h2
  rw [fileParseLoop.eq_def]
  simp [h1, h2]

/-- Witness for C6 at a concrete index state and line. -/
theorem c6_duplicate_id_fatal_witness :
    fileParseLoop fname0 1 [(4, CHFileChar.mkInit 4 [] none)]
        [⟨("4 = \x7b").data, true⟩] 7 = .error (msgDup fname0 8) :=
  c6_duplicate_id_fatal.1 fname0 0 [(4, CHFileChar.mkInit 4 [] none)]
    ⟨("4 = \x7b").data, true⟩ [] 7 4 none (by rfl) (by rfl)

end HistoryPy

namespace HistoryPy

/-- A record with name and culture but no birth date. -/
def c7T : List Char := ("8 = \x7b\nname=x\nculture=y\n\x7d\n").data

/-- A fully populated record for the witness. -/
def c7Ex : CHFileChar :=
  { CHFileChar.mkInit 8 [] none with
      name := some ⟨.pyStr ['x'], none⟩,
      culture := some ⟨.pyStr ['y'], none⟩,
      bdate := some ⟨900, 1, 1⟩ }

/-- C7: finalization at the record's closing brace succeeds exactly when
culture, name, and birth date are all present (first conjunct); when it
succeeds on a record with no dynasty field, the result's dynasty is
defaulted to the commentless lowborn dynasty 0 (second conjunct);
concretely, a record missing its birth date aborts the whole parse with the
fatal finalization error naming the record and its opening line. -/
theorem c7_finalize_requirements :
    (∀ fname c, (∃ y, CHFileChar.finalize fname c = .ok y) ↔
      (c.culture.isSome ∧ c.name.isSome ∧ c.bdate.isSome)) ∧
    (∀ fname c y, CHFileChar.finalize fname c = .ok y →
      c.dynasty = none → y.dynasty = some ⟨.pyInt 0, none⟩) ∧
    chFileParse fname0 [] c7T =
      .error (("Character ID 8 [t.txt: line 1] has no birth date defined!").data) := by
  refine ⟨?_, ?_, by rfl⟩
  · intro fname c
    constructor
    · rintro ⟨y, hy⟩
      obtain ⟨-, h1, h2, h3⟩ := finalize_ok hy
      exact ⟨h1, h2, h3⟩
    · rintro ⟨h1, h2, h3⟩
      obtain ⟨v1, hv1⟩ := Option.isSome_iff_exists.mp h1
      obtain ⟨v2, hv2⟩ := Option.isSome_iff_exists.mp h2
      obtain ⟨v3, hv3⟩ := Option.isSome_iff_exists.mp h3
      exact ⟨{ c with dynasty := some (c.dynasty.getD ⟨.pyInt 0, none⟩) },
        by simp [CHFileChar.finalize, hv1, hv2, hv3]⟩
  · intro fname c y hy hd
    obtain ⟨hy2, -, -, -⟩ := finalize_ok hy
    simp [hy2, hd]

/-- Witness for C7 on a fully populated record with no dynasty. -/
theorem c7_finalize_requirements_witness :
    (∃ y, CHFileChar.finalize fname0 c7Ex = .ok y) ∧
    (CHFileChar.finalize fname0 c7Ex = .ok { c7Ex with dynasty := some ⟨.pyInt 0, none⟩ } →
      ({ c7Ex with dynasty := some ⟨.pyInt 0, none⟩ } : CHFileChar).dynasty =
        some ⟨.pyInt 0, none⟩) :=
  ⟨(c7_finalize_requirements.1 fname0 c7Ex).mpr ⟨rfl, rfl, rfl⟩,
    fun h => c7_finalize_requirements.2.1 fname0 c7Ex _ h rfl⟩

end HistoryPy

namespace HistoryPy

theorem natDec_length_pos (n : Nat) : 0 < (natDec n).length := by
  by_cases h : n < 10
  · rw [natDec_lt10 h]; simp
  · rw [natDec_ge10 h]; simp

theorem natDec_length_le : ∀ w n : Nat, n < 10 ^ (w + 1) →
    (natDec n).length ≤ w + 1 := by
  intro w
  induction w with
  | zero =>
    intro n h
    rw [natDec_lt10 (by simpa using h)]
    simp
  | succ w ih =>
    intro n h
    by_cases h10 : n < 10
    · rw [natDec_lt10 h10]; simp
    · rw [natDec_ge10 h10]
      have hb : n / 10 < 10 ^ (w + 1) := by
        rw [Nat.div_lt_iff_lt_mul (by omega)]
        calc n < 10 ^ (w + 2) := h
          _ = 10 ^ (w + 1) * 10 := by ring
      have := ih _ hb
      simp only [List.length_append, List.length_singleton]
      omega

theorem padNum_one {n : Nat} (h : n < 10) : padNum 1 n = [digitChar n] := by
  simp [padNum, natDec_lt10 h]

theorem padNum_succ (w n : Nat) :
    padNum (w + 2) n = padNum (w + 1) (n / 10) ++ [digitChar (n % 10)] := by
  by_cases h10 : n < 10
  · have hq : n / 10 = 0 := by omega
    have hr : n % 10 = n := by omega
    rw [hq, hr]
    simp only [padNum, natDec_lt10 h10, natDec_lt10 (show (0 : Nat) < 10 by omega),
      List.length_singleton]
    rw [show digitChar 0 = '0' from rfl,
      show w + 2 - 1 = w + 1 from rfl, show w + 1 - 1 = w from rfl,
      List.replicate_succ' (n := w)]
  · rw [padNum, padNum, natDec_ge10 h10]
    simp only [List.length_append, List.length_singleton]
    rw [show w + 2 - ((natDec (n / 10)).length + 1) =
      w + 1 - (natDec (n / 10)).length from by omega]
    simp [List.append_assoc]

theorem padNum_length {w n : Nat} (h : n < 10 ^ (w + 1)) :
    (padNum (w + 1) n).length = w + 1 := by
  have h1 := natDec_length_le w n h
  have h2 := natDec_length_pos n
  simp only [padNum, List.length_append, List.length_replicate]
  omega

theorem lex_append_iff : ∀ u v x y : List Char, u.length = v.length →
    (List.Lex (· < ·) (u ++ x) (v ++ y) ↔
      (List.Lex (· < ·) u v ∨ (u = v ∧ List.Lex (· < ·) x y))) := by
  intro u
  induction u with
  | nil =>
    intro v x y hl
    cases v with
    | nil =>
      simp only [List.nil_append]
      constructor
      · intro h; exact Or.inr ⟨by trivial, h⟩
      · rintro (h | ⟨-, h⟩)
        · cases h
        · exact h
    | cons b v => simp at hl
  | cons a u ih =>
    intro v x y hl
    cases v with
    | nil => simp at hl
    | cons b v =>
      have hl2 : u.length = v.length := by simpa using hl
      have hiff := ih v x y hl2
      simp only [List.cons_append]
      constructor
      · intro h
        cases h with
        | rel h => exact Or.inl (.rel h)
        | cons h =>
          rcases hiff.mp h with h2 | ⟨he, h3⟩
          · exact Or.inl (.cons h2)
          · exact Or.inr ⟨by rw [he], h3⟩
      · rintro (h | ⟨he, h⟩)
        · cases h with
          | rel h => exact .rel h
          | cons h => exact .cons (hiff.mpr (Or.inl h))
        · injection he with h1 h2
          subst h1; subst h2
          exact .cons (hiff.mpr (Or.inr ⟨rfl, h⟩))

theorem lex_single_iff (c d : Char) : List.Lex (· < ·) [c] [d] ↔ c < d := by
  constructor
  · intro h
    cases h with
    | rel h => exact h
    | cons h => cases h
  · intro h; exact .rel h

theorem lex_cons_same (c : Char) (s t : List Char) :
    List.Lex (· < ·) (c :: s) (c :: t) ↔ List.Lex (· < ·) s t := by
  constructor
  · intro h
    cases h with
    | rel h => exact absurd h (lt_irrefl c)
    | cons h => exact h
  · intro h; exact .cons h

theorem digitChar_facts : ∀ a < 10, ∀ b < 10,
    ((digitChar a < digitChar b) ↔ a < b) ∧
    ((digitChar a = digitChar b) ↔ a = b) := by decide

end HistoryPy

namespace HistoryPy

theorem padNum_lt_iff : ∀ w x y : Nat, x < 10 ^ (w + 1) → y < 10 ^ (w + 1) →
    ((List.Lex (· < ·) (padNum (w + 1) x) (padNum (w + 1) y) ↔ x < y) ∧
      (padNum (w + 1) x = padNum (w + 1) y ↔ x = y)) := by
  intro w
  induction w with
  | zero =>
    intro x y hx hy
    have hx10 : x < 10 := by simpa using hx
    have hy10 : y < 10 := by simpa using hy
    rw [padNum_one hx10, padNum_one hy10]
    have hd := digitChar_facts x hx10 y hy10
    refine ⟨by rw [lex_single_iff]; exact hd.1, ?_⟩
    constructor
    · intro h
      injection h with h1
      exact hd.2.mp h1
    · rintro rfl; rfl
  | succ w ih =>
    intro x y hx hy
    have hbx : x / 10 < 10 ^ (w + 1) := by
      rw [Nat.div_lt_iff_lt_mul (by omega)]
      calc x < 10 ^ (w + 2) := hx
        _ = 10 ^ (w + 1) * 10 := by ring
    have hby : y / 10 < 10 ^ (w + 1) := by
      rw [Nat.div_lt_iff_lt_mul (by omega)]
      calc y < 10 ^ (w + 2) := hy
        _ = 10 ^ (w + 1) * 10 := by ring
    have hlen : (padNum (w + 1) (x / 10)).length = (padNum (w + 1) (y / 10)).length := by
      rw [padNum_length hbx, padNum_length hby]
    obtain ⟨ihl, ihe⟩ := ih (x / 10) (y / 10) hbx hby
    have hd := digitChar_facts (x % 10) (by omega) (y % 10) (by omega)
    rw [padNum_succ, padNum_succ]
    constructor
    · rw [lex_append_iff _ _ _ _ hlen, ihl, ihe, lex_single_iff, hd.1]
      omega
    · constructor
      · intro h
        obtain ⟨h1, h2⟩ := List.append_inj h hlen
        have e1 := ihe.mp h1
        injection h2 with h2
        have e2 := hd.2.mp h2
        omega
      · rintro rfl; rfl

end HistoryPy

namespace HistoryPy

/-- C8: on dates whose components fit the canonical widths (`%04d.%02d.%02d`),
the `DateVal` comparison — Python 2 lexicographic string comparison of the
zero-padded canonical strings — coincides with chronological
(year, month, day) order (first conjunct); in particular the chain
1.1.1 < 1.12.1 < 2.1.1 < 1120.1.1 holds, whereas naive lexicographic
comparison of the unpadded renderings would order 1120.1.1 before 2.1.1
(last conjunct). -/
theorem c8_date_ordering :
    (∀ a b : DateVal, a.y < 10000 → b.y < 10000 → a.m < 100 → b.m < 100 →
      a.d < 100 → b.d < 100 →
      (DateVal.lt a b ↔
        (a.y < b.y ∨ (a.y = b.y ∧ (a.m < b.m ∨ (a.m = b.m ∧ a.d < b.d)))))) ∧
    (DateVal.lt ⟨1, 1, 1⟩ ⟨1, 12, 1⟩ ∧ DateVal.lt ⟨1, 12, 1⟩ ⟨2, 1, 1⟩ ∧
      DateVal.lt ⟨2, 1, 1⟩ ⟨1120, 1, 1⟩) ∧
    List.Lex (· < ·) (DateVal.str ⟨1120, 1, 1⟩) (DateVal.str ⟨2, 1, 1⟩) := by
  refine ⟨?_, by decide, by decide⟩
  intro a b hy1 hy2 hm1 hm2 hd1 hd2
  have P4 : ∀ x y : Nat, x < 10000 → y < 10000 →
      ((List.Lex (· < ·) (padNum 4 x) (padNum 4 y) ↔ x < y) ∧
        (padNum 4 x = padNum 4 y ↔ x = y)) := by
    intro x y hx hy
    have := padNum_lt_iff 3 x y (by simpa using hx) (by simpa using hy)
    simpa using this
  have P2 : ∀ x y : Nat, x < 100 → y < 100 →
      ((List.Lex (· < ·) (padNum 2 x) (padNum 2 y) ↔ x < y) ∧
        (padNum 2 x = padNum 2 y ↔ x = y)) := by
    intro x y hx hy
    have := padNum_lt_iff 1 x y (by simpa using hx) (by simpa using hy)
    simpa using this
  have L4 : ∀ x : Nat, x < 10000 → (padNum 4 x).length = 4 := by
    intro x hx
    have := padNum_length (w := 3) (n := x) (by simpa using hx)
    simpa using this
  have L2 : ∀ x : Nat, x < 100 → (padNum 2 x).length = 2 := by
    intro x hx
    have := padNum_length (w := 1) (n := x) (by simpa using hx)
    simpa using this
  unfold DateVal.lt DateVal.c
  simp only [List.append_assoc, List.cons_append]
  rw [lex_append_iff _ _ _ _ (by rw [L4 a.y hy1, L4 b.y hy2]),
    lex_cons_same, lex_append_iff _ _ _ _ (by rw [L2 a.m hm1, L2 b.m hm2]),
    lex_cons_same, (P4 a.y b.y hy1 hy2).1, (P4 a.y b.y hy1 hy2).2,
    (P2 a.m b.m hm1 hm2).1, (P2 a.m b.m hm1 hm2).2, (P2 a.d b.d hd1 hd2).1]

/-- Witness for C8 at a concrete pair of dates. -/
theorem c8_date_ordering_witness :
    DateVal.lt ⟨1, 1, 1⟩ ⟨1, 12, 1⟩ ↔
      ((1 : Nat) < 1 ∨ ((1 : Nat) = 1 ∧ ((1 : Nat) < 12 ∨ ((1 : Nat) = 12 ∧ (1 : Nat) < 1)))) :=
  c8_date_ordering.1 ⟨1, 1, 1⟩ ⟨1, 12, 1⟩ (by decide) (by decide) (by decide)
    (by decide) (by decide) (by decide)

end HistoryPy

namespace HistoryPy

/-- Source whose sole record carries an inline comment on its religion field
and whose closing brace line is terminated. -/
def c2T : List Char :=
  ("3 = \x7b\nname=x\nreligion=z # kept\nculture=y\n900.1.1=\x7b\nbirth=yes\n\x7d\n\x7d\n").data

/-- A concrete dirty record for the witness. -/
def c2Ex : CHFileChar :=
  { CHFileChar.mkInit 3 (("3 = \x7b").data) none with
      dirty := true,
      name := some ⟨.pyStr ['x'], none⟩,
      dynasty := some ⟨.pyInt 0, none⟩,
      religion := some ⟨.pyStr ['z'], none⟩,
      culture := some ⟨.pyStr ['y'], none⟩ }

/-- C2 (amended): a dirty record with all four scalar attributes present
rewrites to its start line followed by the fields in the canonical order
name, female (only when the flag is set), dynasty (when its value differs
from the string "0" under the int-vs-string compare), religion, culture,
then the retained unrecognized elements in order, then the canonically
rewritten history entries, then the closing brace — with a trailing line
terminator unless the record's closing line lacked one in the source (the
`is_last_in_file` flag), NOT "unless the record is the last element of its
file".  A field whose comment is absent gets no synthesized comment (second
conjunct), and a parsed comment is re-emitted after two spaces (the concrete
rewrite, last conjunct). -/
theorem c2_dirty_rewrite_canonical :
    (∀ (c : CHFileChar) nm dy rel cul, c.dirty = true →
      c.name = some nm → c.dynasty = some dy → c.religion = some rel →
      c.culture = some cul →
      CHFileChar.rewrite c = some
        (c.start_line_literal.rewrite ++
          fieldLine (("name").data) true nm ++
          (if c.female then '\t' :: ("female=yes").data ++ ['\n'] else []) ++
          (if pyNe dy.val (.pyStr ['0']) then fieldLine (("dynasty").data) false dy
           else []) ++
          fieldLine (("religion").data) true rel ++
          fieldLine (("culture").data) true cul ++
          (c.elems.map CHElem.rewrite).flatten ++
          (c.hist_entries.map CHFileCharHistEntry.rewrite).flatten ++
          (if c.is_last_in_file then ['\x7d'] else ['\x7d', '\n']))) ∧
    (∀ key q pv, fieldLine key q ⟨pv, none⟩ =
      '\t' :: key ++ '=' ::
        (if q then '"' :: pyFormat pv ++ ['"'] else pyFormat pv) ++ ['\n']) ∧
    isOkB (chFileParse fname0 [] c2T) = true ∧
    CHFileChar.rewrite { parsedChar c2T with dirty := true } =
      some (("3 = \x7b\n\tname=\"x\"\n\tdynasty=0\n\treligion=\"z\"  # kept\n\tculture=\"y\"\n\t900.1.1 = \x7b\n\t\tbirth=yes\n\x7d\n\x7d\n").data) := by
  refine ⟨?_, ?_, by rfl, by rfl⟩
  · intro c nm dy rel cul h1 h2 h3 h4 h5
    simp [CHFileChar.rewrite, h1, h2, h3, h4, h5]
  · intro key q pv
    simp [fieldLine]

/-- C2 counterexample to the frozen wording: the sole — hence last — record
of its file, whose closing line is terminated in the source, has
`is_last_in_file = false` and its dirty rewrite DOES end with a trailing
line terminator after the closing brace. -/
theorem c2_last_element_terminator_counterexample :
    (exOk (chFileParse fname0 [] c2T)).1 = [.char (parsedChar c2T)] ∧
    (parsedChar c2T).is_last_in_file = false ∧
    ((CHFileChar.rewrite { parsedChar c2T with dirty := true }).getD
        []).getLast? = some '\n' :=
  ⟨rfl, rfl, rfl⟩

/-- Witness for C2 at a concrete dirty record. -/
theorem c2_dirty_rewrite_canonical_witness :
    CHFileChar.rewrite c2Ex = some
      (c2Ex.start_line_literal.rewrite ++
        fieldLine (("name").data) true ⟨.pyStr ['x'], none⟩ ++
        (if c2Ex.female then '\t' :: ("female=yes").data ++ ['\n'] else []) ++
        (if pyNe (PyVal.pyInt 0) (.pyStr ['0']) then
          fieldLine (("dynasty").data) false ⟨.pyInt 0, none⟩
         else []) ++
        fieldLine (("religion").data) true ⟨.pyStr ['z'], none⟩ ++
        fieldLine (("culture").data) true ⟨.pyStr ['y'], none⟩ ++
        (c2Ex.elems.map CHElem.rewrite).flatten ++
        (c2Ex.hist_entries.map CHFileCharHistEntry.rewrite).flatten ++
        (if c2Ex.is_last_in_file then ['\x7d'] else ['\x7d', '\n'])) :=
  c2_dirty_rewrite_canonical.1 c2Ex ⟨.pyStr ['x'], none⟩ ⟨.pyInt 0, none⟩
    ⟨.pyStr ['z'], none⟩ ⟨.pyStr ['y'], none⟩ rfl rfl rfl rfl rfl

end HistoryPy
